import Mathlib

/-!
Verification development for the host-side relay engine of the
microsoft/dev-tunnels Rust SDK.

The definitions below are a shallow embedding of the Rust source:

* `src/rs/src/connections/host_relay.rs` — the `HostRelay` façade
  (`add_port_raw`, `remove_port`, `unregister`), the per-client server
  loop (`Server::run_stream`), the `ServerHandle` SSH callbacks, the
  `ForwardedPortReader`, and the `RelayHandle`.
* `src/rs/src/connections/io.rs` — the `ReadBuffer` chunked byte adapter.
* `src/rs/src/connections/ws.rs` — the WebSocket ping/pong liveness state
  machine of `AsyncRWWebSocket::poll_read`.
* `src/rs/src/management/http_client.rs` — `execute_no_response`.
* `src/rs/src/management/errors.rs`, `src/rs/src/connections/errors.rs` —
  the error taxonomy.

Machine integers: Rust `u16`/`u32` port numbers are represented as `Nat`;
the only cast in scope (`port_number as u32` on a `u16`) is the identity
on values. Byte payloads (`Vec<u8>`) are `List Nat`; no arithmetic is
performed on bytes. Fallible Rust functions become functions returning
`Except`; async runtime effects (management HTTP calls, SSH requests,
channel sends) are passed in as explicit outcome parameters, and the
observable actions a method performs are returned alongside its result.
-/

namespace DevTunnels

/-- Poll result, mirroring `std::task::Poll`. -/
inductive Poll (α : Type) where
  | ready (a : α)
  | pending
  deriving Repr, DecidableEq

/-! ## Error taxonomy

`ResponseError` and `HttpError` from `src/rs/src/management/errors.rs`;
`TunnelError` from `src/rs/src/connections/errors.rs`. The payloads the
core never inspects (`reqwest::Error`, `russh::Error`, `tungstenite::Error`)
are represented by opaque numeric codes. -/

/-- `ResponseError` from management/errors.rs: url, status_code, data, request_id. -/
structure ResponseError where
  url : String
  statusCode : Nat
  respData : Option String
  requestId : Option String
  deriving Repr, DecidableEq

/-- `HttpError` from management/errors.rs. -/
inductive HttpError where
  | connectionError (code : Nat)
  | responseError (e : ResponseError)
  | authorizationError (msg : String)
  deriving Repr, DecidableEq

/-- Opaque stand-in for `russh::Error`. -/
structure SshError where
  code : Nat
  deriving Repr, DecidableEq

/-- `TunnelError` from connections/errors.rs (the variants the core constructs). -/
inductive TunnelError where
  | httpError (error : HttpError) (reason : String)
  | tunnelRelayDisconnected (e : SshError)
  | missingHostEndpoint
  | invalidHostEndpoint (s : String)
  | webSocketError (code : Nat)
  | portAlreadyExists (n : Nat)
  deriving Repr, DecidableEq

/-! ## Association lists standing in for `HashMap`

Rust `HashMap` has at most one entry per key; `insert` overwrites,
`remove` deletes. Represented as an association list where `insert`
erases the key first, so the one-entry-per-key invariant holds
structurally. -/

/-- `HashMap::get` (value part). -/
def alFind {α : Type} (m : List (Nat × α)) (k : Nat) : Option α :=
  (m.find? (fun p => p.1 == k)).map (·.2)

/-- `HashMap::remove`. -/
def alErase {α : Type} (m : List (Nat × α)) (k : Nat) : List (Nat × α) :=
  m.filter (fun p => p.1 != k)

/-- `HashMap::insert` (overwriting). -/
def alInsert {α : Type} (m : List (Nat × α)) (k : Nat) (v : α) : List (Nat × α) :=
  alErase m k ++ [(k, v)]

/-! ## The desired-port map and the `HostRelay` façade operations

`type PortMap = HashMap<u32, mpsc::UnboundedSender<ForwardedPortConnection>>`.
The unbounded senders created by `mpsc::unbounded_channel()` are
identified by freshness counters. -/

/-- The desired-port map: port number to sender id. -/
abbrev PortMap := List (Nat × Nat)

def pmGet (m : PortMap) (n : Nat) : Option Nat := alFind m n

def pmInsert (m : PortMap) (n tx : Nat) : PortMap := alInsert m n tx

def pmRemove (m : PortMap) (n : Nat) : PortMap := alErase m n

def pmKeys (m : PortMap) : List Nat := m.map (·.1)

def pmKeysFinset (m : PortMap) : Finset Nat := (pmKeys m).toFinset

/-- The façade state relevant to port bookkeeping: the watch-channel
map (`ports_tx`/`ports_rx`) plus a freshness counter for the
`mpsc::unbounded_channel()` pairs `add_port_raw` creates. -/
structure HostRelayState where
  ports : PortMap
  nextTx : Nat
  deriving Repr, DecidableEq

/-- `HostRelay::new` starts with `watch::channel(HashMap::new())`. -/
def initialRelayState : HostRelayState := ⟨[], 0⟩

/-- `HostRelay::add_port_raw` (host_relay.rs lines 248-280).
`createResult` is the outcome of the awaited management call
`create_tunnel_port`. Returns (result carrying the fresh receiver id,
new state, whether the management client was called). The early
`PortAlreadyExists` return happens before the management call. -/
def add_port_raw (st : HostRelayState) (portNumber : Nat)
    (createResult : Except HttpError Unit) :
    Except TunnelError Nat × HostRelayState × Bool :=
  if (pmGet st.ports portNumber).isSome then
    (Except.error (TunnelError.portAlreadyExists portNumber), st, false)
  else
    match createResult with
    | Except.ok _ =>
        (Except.ok st.nextTx,
          ⟨pmInsert st.ports portNumber st.nextTx, st.nextTx + 1⟩, true)
    | Except.error (HttpError.responseError e) =>
        -- `Err(HttpError::ResponseError(e)) if e.status_code == 409 => {}`
        if e.statusCode = 409 then
          (Except.ok st.nextTx,
            ⟨pmInsert st.ports portNumber st.nextTx, st.nextTx + 1⟩, true)
        else
          (Except.error (TunnelError.httpError (HttpError.responseError e)
              "failed to add port to tunnel"), st, true)
    | Except.error e =>
        (Except.error (TunnelError.httpError e "failed to add port to tunnel"),
          st, true)

/-- `HostRelay::remove_port` (host_relay.rs lines 299-313). `deleteResult`
is the outcome of `delete_tunnel_port`; its `bool` payload is ignored by
the source. The map is mutated only after the `?` on the management call. -/
def remove_port (st : HostRelayState) (portNumber : Nat)
    (deleteResult : Except HttpError Bool) :
    Except TunnelError Unit × HostRelayState :=
  match deleteResult with
  | Except.error e =>
      (Except.error (TunnelError.httpError e "failed to remove port from tunnel"),
        st)
  | Except.ok _ =>
      (Except.ok (), ⟨pmRemove st.ports portNumber, st.nextTx⟩)

/-- `HostRelay::unregister` (host_relay.rs lines 225-238): surfaces the
`delete_tunnel_endpoints` result; never touches the port map. -/
def unregister (st : HostRelayState) (deleteResult : Except HttpError Bool) :
    Except TunnelError Bool × HostRelayState :=
  match deleteResult with
  | Except.error e =>
      (Except.error (TunnelError.httpError e "could not unregister relay"), st)
  | Except.ok b => (Except.ok b, st)

/-! ## Sequences of façade calls (for the desired-port map invariant) -/

instance {ε α : Type} [DecidableEq ε] [DecidableEq α] : DecidableEq (Except ε α) :=
  fun a b =>
    match a, b with
    | Except.ok x, Except.ok y =>
        if h : x = y then isTrue (by rw [h])
        else isFalse (fun c => by cases c; exact h rfl)
    | Except.ok _, Except.error _ => isFalse (fun c => by cases c)
    | Except.error _, Except.ok _ => isFalse (fun c => by cases c)
    | Except.error x, Except.error y =>
        if h : x = y then isTrue (by rw [h])
        else isFalse (fun c => by cases c; exact h rfl)

/-- One façade call together with the management outcome it observes. -/
inductive HostOp where
  | addOp (n : Nat) (createResult : Except HttpError Unit)
  | removeOp (n : Nat) (deleteResult : Except HttpError Bool)
  deriving Repr, DecidableEq

/-- Run one call; the `Bool` records whether it returned success. -/
def runStep (st : HostRelayState) : HostOp → HostRelayState × Bool
  | HostOp.addOp n r =>
      match add_port_raw st n r with
      | (Except.ok _, st', _) => (st', true)
      | (Except.error _, st', _) => (st', false)
  | HostOp.removeOp n r =>
      match remove_port st n r with
      | (Except.ok _, st') => (st', true)
      | (Except.error _, st') => (st', false)

/-- Run a sequence of calls; the `Bool` is true iff every call succeeded. -/
def runOps : HostRelayState → List HostOp → HostRelayState × Bool
  | st, [] => (st, true)
  | st, op :: rest =>
      let s := runStep st op
      let r := runOps s.1 rest
      (r.1, s.2 && r.2)

/-- Port numbers passed to `add_port_raw` in the sequence. -/
def addedPorts (ops : List HostOp) : List Nat :=
  ops.filterMap (fun op => match op with
    | HostOp.addOp n _ => some n
    | _ => none)

/-- Port numbers passed to `remove_port` in the sequence. -/
def removedPorts (ops : List HostOp) : List Nat :=
  ops.filterMap (fun op => match op with
    | HostOp.removeOp n _ => some n
    | _ => none)

def addedFinset (ops : List HostOp) : Finset Nat := (addedPorts ops).toFinset

def removedFinset (ops : List HostOp) : Finset Nat := (removedPorts ops).toFinset

/-- Whether the last call in `ops` touching port `n` was an add
(`some true`), a remove (`some false`), or no call touched `n` (`none`). -/
def lastTouch : List HostOp → Nat → Option Bool
  | [], _ => none
  | op :: rest, n =>
      match lastTouch rest n with
      | some b => some b
      | none =>
          match op with
          | HostOp.addOp m _ => if m = n then some true else none
          | HostOp.removeOp m _ => if m = n then some false else none

/-! ## Management HTTP layer: `execute_no_response`

`TunnelManagementClient::execute_no_response` (http_client.rs lines
327-353): 2xx yields `Ok(true)`, 404 yields `Ok(false)`, anything else a
`ResponseError`; a transport failure is a `ConnectionError`. -/

/-- The observable outcome of executing an HTTP request. -/
inductive HttpOutcome where
  | connFailure (code : Nat)
  | response (status : Nat) (body : Option String) (requestId : Option String)
      (url : String)
  deriving Repr, DecidableEq

/-- `reqwest::StatusCode::is_success`: 200..=299. -/
def isSuccessStatus (s : Nat) : Bool := 200 ≤ s && s < 300

def execute_no_response (out : HttpOutcome) : Except HttpError Bool :=
  match out with
  | HttpOutcome.connFailure c => Except.error (HttpError.connectionError c)
  | HttpOutcome.response status body requestId url =>
      if isSuccessStatus status then Except.ok true
      else if status = 404 then Except.ok false
      else Except.error (HttpError.responseError ⟨url, status, body, requestId⟩)

/-- `TunnelManagementClient::delete_tunnel_port` delegates to
`execute_no_response`. -/
def delete_tunnel_port (out : HttpOutcome) : Except HttpError Bool :=
  execute_no_response out

/-- `remove_port` driven by the HTTP outcome its `delete_tunnel_port`
call observes. -/
def remove_port_http (st : HostRelayState) (portNumber : Nat)
    (out : HttpOutcome) : Except TunnelError Unit × HostRelayState :=
  remove_port st portNumber (delete_tunnel_port out)

/-! ## `RelayHandle` (host_relay.rs lines 1034-1069)

`join` is the `JoinHandle` of the dispatcher task spawned in `connect`;
awaiting it yields `Err(JoinError)` when the task panicked or was
cancelled, else the task's own `Result<(), russh::Error>`. -/

/-- Outcome of awaiting the dispatcher `JoinHandle`. -/
inductive JoinOutcome where
  | finished (r : Except SshError Unit)
  | joinFailure
  deriving Repr, DecidableEq

/-- `impl Future for RelayHandle` (lines 1057-1069): `Ok(Ok(_))` maps to
`Ok(())`, `Ok(Err(e))` to `TunnelRelayDisconnected(e)`, and a join error
(`Err(_)`) to `Ok(())`. -/
def relay_handle_poll (j : JoinOutcome) : Except TunnelError Unit :=
  match j with
  | JoinOutcome.finished (Except.ok _) => Except.ok ()
  | JoinOutcome.finished (Except.error e) =>
      Except.error (TunnelError.tunnelRelayDisconnected e)
  | JoinOutcome.joinFailure => Except.ok ()

/-- `russh::Disconnect` reasons (the ones this code mentions). -/
inductive DisconnectReason where
  | byApplication
  | protocolError
  deriving Repr, DecidableEq

/-- The awaited actions `RelayHandle::close` performs, in order. -/
inductive CloseAction where
  | sendDisconnect (reason : DisconnectReason) (description : String)
      (language : String)
  | awaitDispatcher
  deriving Repr, DecidableEq

/-- `RelayHandle::close` (lines 1047-1054): awaits
`session.disconnect(ByApplication, "disconnect", "en")`, then awaits the
dispatcher join handle discarding its outcome, then returns the
disconnect result mapped through `TunnelRelayDisconnected`. The action
list records, in source order, what was awaited before returning. -/
def relay_handle_close (disconnectResult : Except SshError Unit)
    (_join : JoinOutcome) : List CloseAction × Except TunnelError Unit :=
  ([CloseAction.sendDisconnect DisconnectReason.byApplication "disconnect" "en",
    CloseAction.awaitDispatcher],
    match disconnectResult with
    | Except.ok _ => Except.ok ()
    | Except.error e => Except.error (TunnelError.tunnelRelayDisconnected e))

/-! ## The dispatcher task behind the `RelayHandle`
(spawned by `connect`, host_relay.rs lines 180-215)

The task selects on the `ChannelOp` stream fed by the outer SSH
`Client` handler. Its loop exits only through the `else => break` branch
— when the op stream has closed, which is also its only view of the
outer transport ending, gracefully or not (the handler is dropped and
`rx.recv()` yields `None`). It then awaits
`disconnect(ByApplication, "going away", "en")`, discards that result
with `.ok()`, and returns `Ok(())`: no path returns `Err`. The per-open
`server.run_stream(..)` join handles are dropped at the `channels.insert`
line and never joined into this task's result. -/

/-- `ChannelOp` (host_relay.rs lines 851-856). -/
inductive ChannelOp where
  | openOp (id : Nat)
  | closeOp (id : Nat)
  | dataOp (id : Nat) (bytes : List Nat)
  deriving Repr, DecidableEq

/-- Dispatcher loop state: the per-channel sender map (sender ids from a
freshness counter) and the channels for which a client session was
spawned. -/
structure DispatcherState where
  channels : List (Nat × Nat)
  spawned : List Nat
  nextTx : Nat
  deriving Repr, DecidableEq

/-- One iteration of the dispatcher select loop. `sendOk` is the outcome
of the `ch.send(data)` on a `Data` op (it fails when the per-channel
receiver was dropped, upon which the entry is removed). -/
def dispatcherStep (st : DispatcherState) : ChannelOp → Bool → DispatcherState
  | ChannelOp.openOp id, _ =>
      { st with
        channels := alInsert st.channels id st.nextTx
        spawned := st.spawned ++ [id]
        nextTx := st.nextTx + 1 }
  | ChannelOp.closeOp id, _ => { st with channels := alErase st.channels id }
  | ChannelOp.dataOp id _, sendOk =>
      match alFind st.channels id with
      | none => st
      | some _ =>
          if sendOk then st
          else { st with channels := alErase st.channels id }

/-- The whole dispatcher task: process the ops delivered before the op
stream closed, then await the final disconnect — whose outcome
`disconnectResult` is discarded with `.ok()` — and return `Ok(())`, the
only return on any path. Yields the final loop state, the disconnect
action performed, and the task's result. -/
def dispatcherRun (ops : List (ChannelOp × Bool))
    (_disconnectResult : Except SshError Unit) :
    DispatcherState × CloseAction × Except SshError Unit :=
  (ops.foldl (fun st p => dispatcherStep st p.1 p.2) ⟨[], [], 0⟩,
    CloseAction.sendDisconnect DisconnectReason.byApplication "going away" "en",
    Except.ok ())

/-! ## Per-session port reconciliation (`Server::run_stream`, lines 628-663)

The `ports.changed()` select branch: clone the watched map, send one
`forward_tcpip("127.0.0.1", port)` per newly desired port, one
`cancel_forward_tcpip("127.0.0.1", port)` per no-longer-desired port —
each awaited result discarded with `.ok()` — then adopt the clone as
`known_ports`. Maps enter as their key lists (`HashMap::keys` visits
each key exactly once, in unspecified order). -/

/-- A global SSH request issued to the connecting client. -/
inductive ForwardRequest where
  | forwardTcpip (address : String) (port : Nat)
  | cancelForwardTcpip (address : String) (port : Nat)
  deriving Repr, DecidableEq

/-- The requests one `ports.changed()` tick issues, in source order:
forwards for `new_ports` keys missing from `known_ports`, then cancels
for `known_ports` keys missing from `new_ports`. -/
def reconcileRequests (known newPorts : List Nat) : List ForwardRequest :=
  (newPorts.filter (fun p => !known.contains p)).map
      (fun p => ForwardRequest.forwardTcpip "127.0.0.1" p)
    ++ (known.filter (fun p => !newPorts.contains p)).map
      (fun p => ForwardRequest.cancelForwardTcpip "127.0.0.1" p)

/-- One `ports.changed()` tick: issue the requests (`requestResults`
gives the outcome of each awaited request; every outcome is discarded
with `.ok()`), then `known_ports = new_ports`. Returns the issued
requests and the session's new known set. -/
def reconcileStep (known newPorts : List Nat)
    (_requestResults : ForwardRequest → Except SshError Unit) :
    List ForwardRequest × List Nat :=
  (reconcileRequests known newPorts, newPorts)

/-! ## Chunked byte adapter (`ReadBuffer`, io.rs lines 11-40) and
`ForwardedPortReader::poll_read` (host_relay.rs lines 544-560)

A `tokio::io::ReadBuf` target is abstracted by its remaining capacity
`cap`; "writing" bytes is returning the list written. -/

/-- `ReadBuffer`: at most one leftover byte vector. -/
structure ReadBuffer where
  leftover : Option (List Nat)
  deriving Repr, DecidableEq

/-- `ReadBuffer::take_data`: `Option::take`. -/
def ReadBuffer.take_data (rb : ReadBuffer) : Option (List Nat) × ReadBuffer :=
  (rb.leftover, ⟨none⟩)

/-- `ReadBuffer::put_data`: empty input clears the buffer and reports
`Poll::Pending` (an empty write would signal EOF); otherwise write
`min(cap, |bytes|)` bytes and stash the uncopied suffix. Every branch
overwrites the stored option, so the prior contents are irrelevant. -/
def ReadBuffer.put_data (_rb : ReadBuffer) (cap : Nat) (bytes : List Nat) :
    Poll (List Nat) × ReadBuffer :=
  if bytes = [] then (Poll.pending, ⟨none⟩)
  else if bytes.length ≤ cap then (Poll.ready bytes, ⟨none⟩)
  else (Poll.ready (bytes.take cap), ⟨some (bytes.drop cap)⟩)

/-- A bounded `mpsc::Receiver<Vec<u8>>`: the chunks currently queued and
whether the sending side has been dropped (`closed = true` means no
further chunks will ever arrive). -/
structure ByteReceiver where
  chunks : List (List Nat)
  closed : Bool
  deriving Repr, DecidableEq

/-- `Receiver::poll_recv`: next queued chunk, or `Ready(None)` once the
queue is drained and the sender is gone, or `Pending`. -/
def ByteReceiver.poll_recv (r : ByteReceiver) :
    Poll (Option (List Nat)) × ByteReceiver :=
  match r.chunks with
  | c :: rest => (Poll.ready (some c), ⟨rest, r.closed⟩)
  | [] => if r.closed then (Poll.ready none, r) else (Poll.pending, r)

/-- `ForwardedPortReader`: the per-connection receiver plus a `ReadBuffer`. -/
structure ForwardedPortReader where
  receiver : ByteReceiver
  readbuf : ReadBuffer
  deriving Repr, DecidableEq

/-- What one `poll_read` reports upward. -/
inductive ReadPoll where
  | readData (bytes : List Nat)
  | eofError
  | pending
  deriving Repr, DecidableEq

/-- `ForwardedPortReader::poll_read`: drain the leftover first; else pull
the next chunk; `Ready(None)` from the receiver becomes the "EOF" io
error; `Pending` propagates. -/
def ForwardedPortReader.poll_read (st : ForwardedPortReader) (cap : Nat) :
    ReadPoll × ForwardedPortReader :=
  match st.readbuf.take_data with
  | (some v, rb) =>
      match rb.put_data cap v with
      | (Poll.ready w, rb') => (ReadPoll.readData w, ⟨st.receiver, rb'⟩)
      | (Poll.pending, rb') => (ReadPoll.pending, ⟨st.receiver, rb'⟩)
  | (none, rb) =>
      match st.receiver.poll_recv with
      | (Poll.ready (some msg), r') =>
          match rb.put_data cap msg with
          | (Poll.ready w, rb') => (ReadPoll.readData w, ⟨r', rb'⟩)
          | (Poll.pending, rb') => (ReadPoll.pending, ⟨r', rb'⟩)
      | (Poll.ready none, r') => (ReadPoll.eofError, ⟨r', rb⟩)
      | (Poll.pending, r') => (ReadPoll.pending, ⟨r', rb⟩)

/-- Repeated reads through buffers of the given capacities. -/
def readRun (st : ForwardedPortReader) : List Nat → List ReadPoll × ForwardedPortReader
  | [] => ([], st)
  | cap :: caps =>
      let s := st.poll_read cap
      let r := readRun s.2 caps
      (s.1 :: r.1, r.2)

/-- Concatenation of all bytes a sequence of polls delivered. -/
def readOutBytes (outs : List ReadPoll) : List Nat :=
  (outs.filterMap (fun o => match o with
    | ReadPoll.readData w => some w
    | _ => none)).flatten

/-- All bytes the reader still holds: leftover first, then queued chunks. -/
def readerRep (st : ForwardedPortReader) : List Nat :=
  (st.readbuf.leftover.getD []) ++ st.receiver.chunks.flatten

/-- Progress measure: bytes held plus chunks queued. -/
def readerMeasure (st : ForwardedPortReader) : Nat :=
  (readerRep st).length + st.receiver.chunks.length

/-- Reachable-state well-formedness: `put_data` never stashes an empty
leftover. -/
def readerWF (st : ForwardedPortReader) : Prop :=
  st.readbuf.leftover ≠ some []

/-! ## WebSocket liveness state machine
(`AsyncRWWebSocket::poll_read`, ws.rs lines 129-212, and
`poll_send_ping`, lines 56-71)

One `poll_read` invocation is modelled by `wsPollRead`, given:
* `now` — the current instant (the tokio timer is ready iff
  `deadline ≤ now`);
* `flushReady` — whether `poll_flush` of the websocket completes on this
  poll (the queued ping is taken to enqueue successfully; websocket
  send/flush errors, which simply error the stream out, are outside the
  liveness claim);
* `frames` — the frames `poll_next` would deliver on this poll, in
  order; an exhausted list is `Poll::Pending`.

The `readbuf` fast path at the top of the source `poll_read` returns
bytes buffered by a *previous* frame before the state machine runs; it
touches neither the ping state nor the timer, and is verified separately
with the chunked byte adapter, so data frames are delivered whole here.
Consuming any frame resets the timer to `now + ping_interval`; an empty
text/binary payload is reported `Pending` by `ReadBuffer::put_data`. -/

/-- Ping/pong liveness states (ws.rs `PingState`). -/
inductive PingState where
  | willPing
  | sendingPing
  | waitingForPong
  deriving Repr, DecidableEq

/-- Liveness-relevant state of `AsyncRWWebSocket`: the ping state and the
absolute deadline of `ping_timer`. -/
structure WsState where
  pingState : PingState
  deadline : Nat
  deriving Repr, DecidableEq

/-- State after `AsyncRWWebSocket::new`: `sleep(ping_interval)` started
at `start`, state `WillPing`. -/
def wsInit (interval start : Nat) : WsState :=
  ⟨PingState.willPing, start + interval⟩

/-- An inbound websocket frame (tungstenite `Message`). -/
inductive Frame where
  | text (payload : List Nat)
  | binary (payload : List Nat)
  | pingFrame (payload : List Nat)
  | pongFrame (payload : List Nat)
  | closeFrame
  deriving Repr, DecidableEq

/-- What one `poll_read` reports upward: payload bytes, EOF
(`Ready(Ok(()))` with nothing written), or pending. -/
inductive WsReadOut where
  | wsData (bytes : List Nat)
  | wsEof
  | wsPending
  deriving Repr, DecidableEq

/-- The read loop at the bottom of `poll_read` (ws.rs lines 179-211).
Returns the poll outcome, the state, and how many frames were consumed. -/
def wsReadLoop (interval now : Nat) : WsState → List Frame → WsReadOut × WsState × Nat
  | s, [] => (WsReadOut.wsPending, s, 0)
  | s, f :: rest =>
      -- every `Ready(Some(Ok(msg)))` bumps the timer to `now + ping_interval`
      let s1 : WsState := ⟨s.pingState, now + interval⟩
      match f with
      | Frame.text payload =>
          if payload = [] then (WsReadOut.wsPending, s1, 1)
          else (WsReadOut.wsData payload, s1, 1)
      | Frame.binary payload =>
          if payload = [] then (WsReadOut.wsPending, s1, 1)
          else (WsReadOut.wsData payload, s1, 1)
      | Frame.closeFrame => (WsReadOut.wsEof, s1, 1)
      | Frame.pongFrame _ =>
          let r := wsReadLoop interval now ⟨PingState.willPing, s1.deadline⟩ rest
          (r.1, r.2.1, r.2.2 + 1)
      | Frame.pingFrame _ =>
          -- tungstenite answers pings internally; not surfaced
          let r := wsReadLoop interval now s1 rest
          (r.1, r.2.1, r.2.2 + 1)

/-- One `poll_read` (ws.rs lines 129-212), liveness machine plus read
loop. In `SendingPing`, `poll_send_ping` either completes the flush
(deadline := now + ping_timeout, state `WaitingForPong`, fall through to
the read loop) or stays `Pending`. Otherwise, if the timer fired:
`WaitingForPong` signals EOF; `WillPing` enqueues a ping, enters
`SendingPing` and immediately polls the flush. If the timer did not
fire, go straight to the read loop. -/
def wsPollRead (interval timeout : Nat) (s : WsState) (now : Nat)
    (flushReady : Bool) (frames : List Frame) : WsReadOut × WsState × Nat :=
  match s.pingState with
  | PingState.sendingPing =>
      if flushReady then
        wsReadLoop interval now ⟨PingState.waitingForPong, now + timeout⟩ frames
      else (WsReadOut.wsPending, s, 0)
  | PingState.willPing =>
      if s.deadline ≤ now then
        if flushReady then
          wsReadLoop interval now ⟨PingState.waitingForPong, now + timeout⟩ frames
        else (WsReadOut.wsPending, ⟨PingState.sendingPing, s.deadline⟩, 0)
      else wsReadLoop interval now s frames
  | PingState.waitingForPong =>
      if s.deadline ≤ now then (WsReadOut.wsEof, s, 0)
      else wsReadLoop interval now s frames

/-- Input to one poll of the read side. -/
structure PollIn where
  now : Nat
  flushReady : Bool
  frames : List Frame
  deriving Repr, DecidableEq

/-- One entry of a run: when the poll happened, what it reported, and the
time of the last inbound frame consumed before this poll (session start
if none). -/
structure WsStep where
  time : Nat
  out : WsReadOut
  trafficBefore : Nat
  deriving Repr, DecidableEq

/-- Run a sequence of polls, tracking the last-inbound-traffic time `lt`. -/
def wsRun (interval timeout : Nat) :
    WsState → Nat → List PollIn → List WsStep × WsState × Nat
  | s, lt, [] => ([], s, lt)
  | s, lt, p :: rest =>
      let r := wsPollRead interval timeout s p.now p.flushReady p.frames
      let lt' := if r.2.2 = 0 then lt else p.now
      let k := wsRun interval timeout r.2.1 lt' rest
      (⟨p.now, r.1, lt⟩ :: k.1, k.2.1, k.2.2)

/-- Poll times never decrease, starting from `t0`. -/
def pollsMonotone : Nat → List PollIn → Bool
  | _, [] => true
  | t, p :: rest => t ≤ p.now && pollsMonotone p.now rest

def frameIsClose : Frame → Bool
  | Frame.closeFrame => true
  | _ => false

/-- The upstream stays open: no poll delivers a close frame. -/
def pollsNoClose (polls : List PollIn) : Bool :=
  polls.all (fun p => p.frames.all (fun f => !frameIsClose f))

/-- Trace invariant tying the timer to the last inbound traffic `lt`:
outside `SendingPing` the deadline is at least `lt + interval`; in
`SendingPing` the timer already fired at or before the previous poll
time `tprev`, itself at least `lt + interval`. -/
def wsInv (interval : Nat) (s : WsState) (lt tprev : Nat) : Prop :=
  match s.pingState with
  | PingState.sendingPing => lt + interval ≤ tprev
  | _ => lt + interval ≤ s.deadline

/-! ## Per-client session: forwarded-connection construction and routing

`ServerHandle::channel_open_forwarded_tcpip` and `ServerHandle::data`
(host_relay.rs lines 808-847) together with the
`server_connection_rx.recv()` select branch of `Server::run_stream`
(lines 634-644). A `ForwardedPortConnection` is reduced to its
identifying metadata; the bytes its bounded queue receives are tracked
in `buffers`, keyed by connection id. -/

/-- Identity of one `ForwardedPortConnection`: a freshness id, the
`port_to_connect` selector it was created with, and its SSH channel id. -/
structure ForwardedConnMeta where
  connId : Nat
  port : Nat
  channel : Nat
  deriving Repr, DecidableEq

/-- Combined state of one client session's handler callbacks and its
`run_stream` select loop. `routed` records each connection delivered to
a per-port sender, with the `known_ports` key snapshot at that moment;
`allConns` is the registry of every connection ever constructed. -/
structure SessionState where
  channelSenders : List (Nat × Nat)
  pendingCnx : List ForwardedConnMeta
  buffers : List (Nat × List (List Nat))
  knownPorts : List Nat
  routed : List (Nat × ForwardedConnMeta × List Nat)
  allConns : List ForwardedConnMeta
  nextConn : Nat
  deriving Repr, DecidableEq

/-- Events driving one client session. `dataCallback`'s `receiverAlive`
says whether the connection's bounded receiver still exists (its `send`
fails once the consumer dropped it); `connArrived`'s `sendOk` is the
outcome of the per-port `UnboundedSender::send`, which fails when the
caller dropped the receiver returned by `add_port_raw`. -/
inductive SessEvent where
  | openForwarded (channel : Nat) (hostToConnect : String) (portToConnect : Nat)
      (originAddr : String) (originPort : Nat)
  | dataCallback (channel : Nat) (bytes : List Nat) (receiverAlive : Bool)
  | connArrived (sendOk : Bool)
  | portsChanged (newPorts : List Nat)
  deriving Repr, DecidableEq

/-- One step of the session.

* `openForwarded` — `channel_open_forwarded_tcpip`: build a fresh
  `ForwardedPortConnection` carrying `port_to_connect` and the channel
  id, queue it on `cnx_tx` (the dispatcher holds `cnx_rx`, so the send
  succeeds while the session lives), and remember the chunk sender under
  the channel id.
* `dataCallback` — `data`: look up the channel's sender; enqueue the
  copied bytes, or drop the sender if the connection's receiver is gone.
* `connArrived` — the select branch: pop the queued connection, look up
  `cnx.port` in the `known_ports` snapshot, and send it to the per-port
  sender, ignoring a failed send (`p.send(cnx).ok()`); absent port means
  the connection is dropped.
* `portsChanged` — the reconciler tick adopting the new key set
  (the requests it issues are `reconcileStep`). -/
def sessStep (st : SessionState) : SessEvent → SessionState
  | SessEvent.openForwarded ch _host p _oa _op =>
      let c : ForwardedConnMeta := ⟨st.nextConn, p, ch⟩
      { st with
        pendingCnx := st.pendingCnx ++ [c]
        channelSenders := alInsert st.channelSenders ch c.connId
        buffers := alInsert st.buffers c.connId []
        allConns := st.allConns ++ [c]
        nextConn := st.nextConn + 1 }
  | SessEvent.dataCallback ch bytes alive =>
      match alFind st.channelSenders ch with
      | none => st
      | some cid =>
          if alive then
            { st with buffers :=
                alInsert st.buffers cid ((alFind st.buffers cid).getD [] ++ [bytes]) }
          else { st with channelSenders := alErase st.channelSenders ch }
  | SessEvent.connArrived sendOk =>
      match st.pendingCnx with
      | [] => st
      | c :: rest =>
          if st.knownPorts.contains c.port then
            if sendOk then
              { st with pendingCnx := rest
                        routed := st.routed ++ [(c.port, c, st.knownPorts)] }
            else { st with pendingCnx := rest }
          else { st with pendingCnx := rest }
  | SessEvent.portsChanged newPorts =>
      { st with knownPorts := newPorts }

def sessRun (st : SessionState) : List SessEvent → SessionState
  | [] => st
  | e :: rest => sessRun (sessStep st e) rest

/-- A fresh client session: no senders, no queued connections, empty
`known_ports`. -/
def sessInit : SessionState := ⟨[], [], [], [], [], [], 0⟩

/-- `ev` constructed connection `c`: an open callback with `c`'s channel
and port selector occurs in the event list. -/
def connHasOrigin (events : List SessEvent) (c : ForwardedConnMeta) : Prop :=
  ∃ h oa op, SessEvent.openForwarded c.channel h c.port oa op ∈ events

/-- Chunk `b` was delivered by a data callback on channel `ch`. -/
def chunkHasOrigin (events : List SessEvent) (ch : Nat) (b : List Nat) : Prop :=
  SessEvent.dataCallback ch b true ∈ events

/-- Whether a management error is the `ResponseError` with status 409
that `add_port_raw` deliberately treats as success. -/
def mgmtIs409 : HttpError → Bool
  | HttpError.responseError e => e.statusCode == 409
  | _ => false

/-- Session-state invariant, relative to the events processed so far:
connection ids are fresh and unique; channel senders, the pending queue
and the routed log only reference constructed connections; routed
entries carry the port selector of their connection and a snapshot
containing it; every constructed connection and every buffered chunk
has an originating callback event. -/
def sessGood (events : List SessEvent) (st : SessionState) : Prop :=
  (∀ c ∈ st.allConns, c.connId < st.nextConn) ∧
  (∀ c ∈ st.allConns, ∀ c' ∈ st.allConns, c.connId = c'.connId → c = c') ∧
  (∀ ch cid, (ch, cid) ∈ st.channelSenders →
    ∃ c ∈ st.allConns, c.connId = cid ∧ c.channel = ch) ∧
  (∀ c ∈ st.pendingCnx, c ∈ st.allConns) ∧
  (∀ p c snap, (p, c, snap) ∈ st.routed →
    c.port = p ∧ snap.contains c.port = true ∧ c ∈ st.allConns) ∧
  (∀ c ∈ st.allConns, connHasOrigin events c) ∧
  (∀ cid chunks, alFind st.buffers cid = some chunks → ∀ b ∈ chunks,
    ∃ c ∈ st.allConns, c.connId = cid ∧ chunkHasOrigin events c.channel b)

/-! # Theorems -/

/-! ## Shared lemmas on the port map -/

theorem pmGet_isSome_iff (m : PortMap) (k : Nat) :
    (pmGet m k).isSome = true ↔ k ∈ pmKeys m := by
  simp only [pmGet, alFind, pmKeys, Option.isSome_map', List.mem_map]
  rw [List.find?_isSome]
  constructor
  · rintro ⟨p, hp, he⟩
    exact ⟨p, hp, by simpa using he⟩
  · rintro ⟨p, hp, he⟩
    exact ⟨p, hp, by simpa using he⟩

theorem mem_pmKeys_pmRemove (m : PortMap) (n k : Nat) :
    k ∈ pmKeys (pmRemove m n) ↔ k ∈ pmKeys m ∧ k ≠ n := by
  simp only [pmKeys, pmRemove, alErase, List.mem_map, List.mem_filter,
    bne_iff_ne, ne_eq]
  constructor
  · rintro ⟨p, ⟨hp, hne⟩, rfl⟩
    exact ⟨⟨p, hp, rfl⟩, hne⟩
  · rintro ⟨⟨p, hp, rfl⟩, hne⟩
    exact ⟨p, ⟨hp, hne⟩, rfl⟩

theorem mem_pmKeys_pmInsert (m : PortMap) (n tx k : Nat) :
    k ∈ pmKeys (pmInsert m n tx) ↔ k ∈ pmKeys m ∨ k = n := by
  have h : pmKeys (pmInsert m n tx) = pmKeys (pmRemove m n) ++ [n] := by
    simp [pmKeys, pmInsert, alInsert, pmRemove]
  rw [h]
  simp only [List.mem_append, List.mem_singleton, mem_pmKeys_pmRemove]
  by_cases hk : k = n
  · simp [hk]
  · simp [hk]

/-! ## C3 and C10: RelayHandle awaiting and closing -/

/-- C3 counterexample: on an outer transport failure the dispatcher's
op stream merely closes — here before any op, and with even the final
goodbye disconnect failing — yet the dispatcher task returns `Ok(())`,
so awaiting the `RelayHandle` yields `Ok(())`, not
`TunnelRelayDisconnected`: the claim's transport-failure half is false
of this program. -/
theorem relay_handle_transport_failure_counterexample :
    (dispatcherRun [] (Except.error ⟨7⟩)).2.2 = Except.ok () ∧
    relay_handle_poll (JoinOutcome.finished
        (dispatcherRun [] (Except.error ⟨7⟩)).2.2) = Except.ok () ∧
    relay_handle_poll (JoinOutcome.finished
        (dispatcherRun [] (Except.error ⟨7⟩)).2.2) ≠
      Except.error (TunnelError.tunnelRelayDisconnected ⟨7⟩) :=
  ⟨rfl, rfl, by decide⟩

/-- C3 (amended): the dispatcher task behind the `RelayHandle` returns
`Ok(())` on every path — the op stream closing is its only exit, for
graceful end and transport failure alike, and the final disconnect's
outcome is discarded — so awaiting the `RelayHandle` yields `Ok(())`
for every dispatcher termination, transport failure included (the
`Ok(Err(e)) → TunnelRelayDisconnected(e)` arm of the `Future` impl is
never fed by this task); `close` awaits, in order, an SSH `Disconnect`
with reason `ByApplication`, description "disconnect" and language "en"
on the outer session and then the dispatcher task, and returns the
mapped disconnect result. -/
theorem relay_handle_dispatcher_ok_and_close_spec :
    (∀ (ops : List (ChannelOp × Bool)) (dres : Except SshError Unit),
      (dispatcherRun ops dres).2.2 = Except.ok ()) ∧
    (∀ (ops : List (ChannelOp × Bool)) (dres : Except SshError Unit),
      relay_handle_poll (JoinOutcome.finished (dispatcherRun ops dres).2.2) =
        Except.ok ()) ∧
    relay_handle_poll (JoinOutcome.finished (Except.ok ())) = Except.ok () ∧
    (∀ (d : Except SshError Unit) (j : JoinOutcome),
      relay_handle_close d j =
        ([CloseAction.sendDisconnect DisconnectReason.byApplication
            "disconnect" "en",
          CloseAction.awaitDispatcher],
          match d with
          | Except.ok _ => Except.ok ()
          | Except.error e =>
              Except.error (TunnelError.tunnelRelayDisconnected e))) :=
  ⟨fun _ _ => rfl, fun _ _ => rfl, rfl, fun _ _ => rfl⟩

/-- C10: when the dispatcher task's join fails (panic or cancellation),
awaiting the `RelayHandle` yields `Ok(())` — the same observable outcome
as a graceful end — rather than any `TunnelError`. -/
theorem relay_handle_join_error_yields_ok :
    relay_handle_poll JoinOutcome.joinFailure = Except.ok () ∧
    relay_handle_poll JoinOutcome.joinFailure =
      relay_handle_poll (JoinOutcome.finished (Except.ok ())) :=
  ⟨rfl, rfl⟩

/-! ## C6: 404 on delete is not an error -/

/-- C6: a 404 response to the delete issued by `remove_port` makes
`execute_no_response` yield `Ok(false)` (not an error), and `remove_port`
still removes the entry from the desired-port map and returns `Ok(())`. -/
theorem remove_port_on_404 (st : HostRelayState) (n : Nat)
    (body reqId : Option String) (url : String) :
    delete_tunnel_port (HttpOutcome.response 404 body reqId url) =
      Except.ok false ∧
    (remove_port_http st n (HttpOutcome.response 404 body reqId url)).1 =
      Except.ok () ∧
    pmKeysFinset
        (remove_port_http st n (HttpOutcome.response 404 body reqId url)).2.ports =
      pmKeysFinset st.ports \ {n} := by
  refine ⟨rfl, rfl, ?_⟩
  ext k
  simp [pmKeysFinset, remove_port_http, remove_port, delete_tunnel_port,
    execute_no_response, isSuccessStatus, mem_pmKeys_pmRemove]

/-! ## C5: 409 on create follows the success path -/

/-- C5: if `create_tunnel_port` fails with an HTTP response error of
status 409 during `add_port_raw(n)` (with `n` not yet present), the call
behaves exactly as on a 2xx success: it returns `Ok` carrying the fresh
receiver, and `n` is inserted into the desired-port map. -/
theorem add_port_raw_409_is_success (st : HostRelayState) (n : Nat)
    (e : ResponseError) (h409 : e.statusCode = 409)
    (habs : pmGet st.ports n = none) :
    add_port_raw st n (Except.error (HttpError.responseError e)) =
      add_port_raw st n (Except.ok ()) ∧
    (add_port_raw st n (Except.error (HttpError.responseError e))).1 =
      Except.ok st.nextTx ∧
    (add_port_raw st n (Except.error (HttpError.responseError e))).2.1.ports =
      pmInsert st.ports n st.nextTx ∧
    n ∈ pmKeys
      (add_port_raw st n (Except.error (HttpError.responseError e))).2.1.ports := by
  refine ⟨?_, ?_, ?_, ?_⟩ <;>
    simp [add_port_raw, habs, h409, mem_pmKeys_pmInsert]

/-- Witness for C5 at a concrete input. -/
theorem add_port_raw_409_is_success_witness :
    add_port_raw initialRelayState 8080
        (Except.error (HttpError.responseError ⟨"u", 409, none, none⟩)) =
      add_port_raw initialRelayState 8080 (Except.ok ()) ∧
    (add_port_raw initialRelayState 8080
        (Except.error (HttpError.responseError ⟨"u", 409, none, none⟩))).1 =
      Except.ok initialRelayState.nextTx ∧
    (add_port_raw initialRelayState 8080
        (Except.error (HttpError.responseError ⟨"u", 409, none, none⟩))).2.1.ports =
      pmInsert initialRelayState.ports 8080 initialRelayState.nextTx ∧
    8080 ∈ pmKeys
      (add_port_raw initialRelayState 8080
        (Except.error (HttpError.responseError ⟨"u", 409, none, none⟩))).2.1.ports :=
  add_port_raw_409_is_success initialRelayState 8080 ⟨"u", 409, none, none⟩
    rfl rfl

/-! ## C4: management failures leave the desired-port map unchanged -/

/-- C4: whenever the management client returns an error to
`add_port_raw`, `remove_port` or `unregister`, the method surfaces an
`HttpError` (with its static reason tag) and the desired-port map is
left unchanged — except that a 409 response error during
`add_port_raw`'s port creation follows the success path. -/
theorem mgmt_error_leaves_state_unchanged :
    (∀ (st : HostRelayState) (n : Nat) (e : HttpError), mgmtIs409 e = false →
      pmGet st.ports n = none →
      add_port_raw st n (Except.error e) =
        (Except.error (TunnelError.httpError e "failed to add port to tunnel"),
          st, true)) ∧
    (∀ (st : HostRelayState) (n : Nat) (e : HttpError),
      remove_port st n (Except.error e) =
        (Except.error (TunnelError.httpError e "failed to remove port from tunnel"),
          st)) ∧
    (∀ (st : HostRelayState) (e : HttpError),
      unregister st (Except.error e) =
        (Except.error (TunnelError.httpError e "could not unregister relay"),
          st)) ∧
    (∀ (st : HostRelayState) (n : Nat) (e : ResponseError),
      e.statusCode = 409 → pmGet st.ports n = none →
      add_port_raw st n (Except.error (HttpError.responseError e)) =
        add_port_raw st n (Except.ok ())) := by
  refine ⟨?_, fun st n e => rfl, fun st e => rfl, ?_⟩
  · intro st n e h409 habs
    cases e with
    | connectionError c => simp [add_port_raw, habs]
    | authorizationError m => simp [add_port_raw, habs]
    | responseError re =>
        have : ¬ re.statusCode = 409 := by
          simpa [mgmtIs409] using h409
        simp [add_port_raw, habs, this]
  · intro st n e h409 habs
    simp [add_port_raw, habs, h409]

/-- Witness for C4 at concrete inputs. -/
theorem mgmt_error_leaves_state_unchanged_witness :
    add_port_raw initialRelayState 8080
        (Except.error (HttpError.connectionError 7)) =
      (Except.error (TunnelError.httpError (HttpError.connectionError 7)
          "failed to add port to tunnel"),
        initialRelayState, true) :=
  mgmt_error_leaves_state_unchanged.1 initialRelayState 8080
    (HttpError.connectionError 7) rfl rfl

/-! ## C1: the desired-port map across call sequences -/

theorem runStep_addOp_true (st : HostRelayState) (m : Nat)
    (r : Except HttpError Unit) (h : (runStep st (HostOp.addOp m r)).2 = true) :
    (runStep st (HostOp.addOp m r)).1.ports = pmInsert st.ports m st.nextTx := by
  by_cases hs : (pmGet st.ports m).isSome = true
  · simp [runStep, add_port_raw, hs] at h
  · cases r with
    | ok u => simp [runStep, add_port_raw, hs]
    | error e =>
        cases e with
        | responseError re =>
            by_cases h409 : re.statusCode = 409
            · simp [runStep, add_port_raw, hs, h409]
            · simp [runStep, add_port_raw, hs, h409] at h
        | connectionError c => simp [runStep, add_port_raw, hs] at h
        | authorizationError s => simp [runStep, add_port_raw, hs] at h

theorem runStep_removeOp_true (st : HostRelayState) (m : Nat)
    (r : Except HttpError Bool)
    (h : (runStep st (HostOp.removeOp m r)).2 = true) :
    (runStep st (HostOp.removeOp m r)).1.ports = pmRemove st.ports m := by
  cases r with
  | ok b => simp [runStep, remove_port]
  | error e => simp [runStep, remove_port] at h

theorem mem_pmKeys_runOps (ops : List HostOp) :
    ∀ st : HostRelayState, (runOps st ops).2 = true → ∀ n : Nat,
      (n ∈ pmKeys (runOps st ops).1.ports ↔
        (match lastTouch ops n with
         | some b => b = true
         | none => n ∈ pmKeys st.ports)) := by
  induction ops with
  | nil => intro st _ n; simp [runOps, lastTouch]
  | cons op rest ih =>
      intro st h n
      have hrw : runOps st (op :: rest) =
          ((runOps (runStep st op).1 rest).1,
            (runStep st op).2 && (runOps (runStep st op).1 rest).2) := by
        simp [runOps]
      rw [hrw] at h ⊢
      have hsplit : (runStep st op).2 = true ∧
          (runOps (runStep st op).1 rest).2 = true := by
        simpa [Bool.and_eq_true] using h
      have ihx := ih (runStep st op).1 hsplit.2 n
      rcases hlt : lastTouch rest n with _ | b
      · rw [hlt] at ihx
        cases op with
        | addOp m r =>
            have hp := runStep_addOp_true st m r hsplit.1
            rw [hp, mem_pmKeys_pmInsert] at ihx
            by_cases hmn : m = n
            · subst hmn
              simp [lastTouch, hlt, ihx]
            · have hnm : ¬ n = m := fun hh => hmn hh.symm
              simp [lastTouch, hlt, hmn, hnm, ihx]
        | removeOp m r =>
            have hp := runStep_removeOp_true st m r hsplit.1
            rw [hp, mem_pmKeys_pmRemove] at ihx
            by_cases hmn : m = n
            · subst hmn
              simp [lastTouch, hlt, ihx]
            · have hnm : ¬ n = m := fun hh => hmn hh.symm
              simp [lastTouch, hlt, hmn, hnm, ihx]
      · rw [hlt] at ihx
        cases op with
        | addOp m r => simpa [lastTouch, hlt] using ihx
        | removeOp m r => simpa [lastTouch, hlt] using ihx

/-- C1 counterexample: the sequence add 5, remove 5, add 5 — every call
returning success — leaves the desired-port map with key set \x7b5\x7d,
while the set of successfully added ports minus the set of successfully
removed ports is empty. The claim's set-difference reading is false. -/
theorem desired_port_set_difference_counterexample :
    (runOps initialRelayState
        [HostOp.addOp 5 (Except.ok ()), HostOp.removeOp 5 (Except.ok true),
          HostOp.addOp 5 (Except.ok ())]).2 = true ∧
    pmKeysFinset (runOps initialRelayState
        [HostOp.addOp 5 (Except.ok ()), HostOp.removeOp 5 (Except.ok true),
          HostOp.addOp 5 (Except.ok ())]).1.ports ≠
      addedFinset
          [HostOp.addOp 5 (Except.ok ()), HostOp.removeOp 5 (Except.ok true),
            HostOp.addOp 5 (Except.ok ())] \
        removedFinset
          [HostOp.addOp 5 (Except.ok ()), HostOp.removeOp 5 (Except.ok true),
            HostOp.addOp 5 (Except.ok ())] := by
  constructor
  · rfl
  · decide

/-- C1 (amended): for every sequence of `add_port_raw` / `remove_port`
calls that each return success, the key set of the desired-port map is
exactly the set of ports whose last successful operation was an add
(this agrees with added-minus-removed whenever no removed port is later
re-added); and `add_port_raw` on a port already present fails with
`PortAlreadyExists` without calling the management client and without
changing the map. -/
theorem desired_port_map_invariant (ops : List HostOp)
    (h : (runOps initialRelayState ops).2 = true) :
    (∀ n : Nat, n ∈ pmKeys (runOps initialRelayState ops).1.ports ↔
      lastTouch ops n = some true) ∧
    (∀ (st : HostRelayState) (n tx : Nat) (r : Except HttpError Unit),
      pmGet st.ports n = some tx →
      add_port_raw st n r =
        (Except.error (TunnelError.portAlreadyExists n), st, false)) := by
  constructor
  · intro n
    have hx := mem_pmKeys_runOps ops initialRelayState h n
    rcases hlt : lastTouch ops n with _ | b
    · rw [hlt] at hx
      have hnot : ¬ n ∈ pmKeys (runOps initialRelayState ops).1.ports := by
        intro hm
        simpa [initialRelayState, pmKeys] using hx.mp hm
      simp [hnot, hlt]
    · rw [hlt] at hx
      cases b with
      | true => simp [hx]
      | false => simp [hx]
  · intro st n tx r hget
    simp [add_port_raw, hget]

/-- Witness for C1 (amended) at the add-remove-add sequence. -/
theorem desired_port_map_invariant_witness :
    (5 ∈ pmKeys (runOps initialRelayState
        [HostOp.addOp 5 (Except.ok ()), HostOp.removeOp 5 (Except.ok true),
          HostOp.addOp 5 (Except.ok ())]).1.ports ↔
      lastTouch
        [HostOp.addOp 5 (Except.ok ()), HostOp.removeOp 5 (Except.ok true),
          HostOp.addOp 5 (Except.ok ())] 5 = some true) :=
  (desired_port_map_invariant
    [HostOp.addOp 5 (Except.ok ()), HostOp.removeOp 5 (Except.ok true),
      HostOp.addOp 5 (Except.ok ())] (by decide)).1 5

/-! ## C2: one port-reconciliation tick -/

theorem mem_filter_not_contains (l l' : List Nat) (p : Nat) :
    p ∈ l.filter (fun q => !l'.contains q) ↔ p ∈ l ∧ p ∉ l' := by
  simp [List.mem_filter]

theorem count_forward_in_cancels (known M : List Nat) (p : Nat) :
    ((known.filter (fun q => !M.contains q)).map
        (fun q => ForwardRequest.cancelForwardTcpip "127.0.0.1" q)).count
      (ForwardRequest.forwardTcpip "127.0.0.1" p) = 0 := by
  rw [List.count_eq_zero]
  intro hmem
  rcases List.mem_map.mp hmem with ⟨q, _, hq⟩
  cases hq

theorem count_cancel_in_forwards (known M : List Nat) (p : Nat) :
    ((M.filter (fun q => !known.contains q)).map
        (fun q => ForwardRequest.forwardTcpip "127.0.0.1" q)).count
      (ForwardRequest.cancelForwardTcpip "127.0.0.1" p) = 0 := by
  rw [List.count_eq_zero]
  intro hmem
  rcases List.mem_map.mp hmem with ⟨q, _, hq⟩
  cases hq

/-- C2: on a desired-port watch tick with `known_ports` keys `known` and
new map keys `M` (each without duplicates, as `HashMap` key sets are),
the session issues exactly one `tcpip-forward` binding `127.0.0.1` per
port of `M` missing from `known`, exactly one `cancel-tcpip-forward`
binding `127.0.0.1` per port of `known` missing from `M`, and nothing
else; the outcome of every request is discarded (`.ok()`), so the tick
is the same function of state for all request outcomes; and
`known_ports` is then replaced by `M`. -/
theorem reconcile_tick_spec (known M : List Nat)
    (hk : known.Nodup) (hM : M.Nodup) :
    (∀ p : Nat,
      (reconcileRequests known M).count
          (ForwardRequest.forwardTcpip "127.0.0.1" p) =
        if p ∈ M ∧ p ∉ known then 1 else 0) ∧
    (∀ p : Nat,
      (reconcileRequests known M).count
          (ForwardRequest.cancelForwardTcpip "127.0.0.1" p) =
        if p ∈ known ∧ p ∉ M then 1 else 0) ∧
    (∀ q ∈ reconcileRequests known M, ∃ p : Nat,
      q = ForwardRequest.forwardTcpip "127.0.0.1" p ∨
      q = ForwardRequest.cancelForwardTcpip "127.0.0.1" p) ∧
    (∀ res res' : ForwardRequest → Except SshError Unit,
      reconcileStep known M res = reconcileStep known M res') ∧
    (∀ res : ForwardRequest → Except SshError Unit,
      (reconcileStep known M res).2 = M) := by
  have hfinj :
      Function.Injective
        (fun q : Nat => ForwardRequest.forwardTcpip "127.0.0.1" q) := by
    intro a b hab
    cases hab
    rfl
  have hcinj :
      Function.Injective
        (fun q : Nat => ForwardRequest.cancelForwardTcpip "127.0.0.1" q) := by
    intro a b hab
    cases hab
    rfl
  refine ⟨?_, ?_, ?_, fun res res' => rfl, fun res => rfl⟩
  · intro p
    unfold reconcileRequests
    rw [List.count_append, count_forward_in_cancels, Nat.add_zero,
      List.count_map_of_injective _ _ hfinj]
    by_cases hp : p ∈ M.filter (fun q => !known.contains q)
    · rw [List.count_eq_one_of_mem (hM.filter _) hp]
      have hm := (mem_filter_not_contains M known p).mp hp
      simp [hm]
    · rw [List.count_eq_zero.mpr hp]
      have hm : ¬ (p ∈ M ∧ p ∉ known) :=
        fun hc => hp ((mem_filter_not_contains M known p).mpr hc)
      simp [hm]
  · intro p
    unfold reconcileRequests
    rw [List.count_append, count_cancel_in_forwards, Nat.zero_add,
      List.count_map_of_injective _ _ hcinj]
    by_cases hp : p ∈ known.filter (fun q => !M.contains q)
    · rw [List.count_eq_one_of_mem (hk.filter _) hp]
      have hm := (mem_filter_not_contains known M p).mp hp
      simp [hm]
    · rw [List.count_eq_zero.mpr hp]
      have hm : ¬ (p ∈ known ∧ p ∉ M) :=
        fun hc => hp ((mem_filter_not_contains known M p).mpr hc)
      simp [hm]
  · intro q hq
    rcases List.mem_append.mp hq with hq' | hq'
    · rcases List.mem_map.mp hq' with ⟨p, _, rfl⟩
      exact ⟨p, Or.inl rfl⟩
    · rcases List.mem_map.mp hq' with ⟨p, _, rfl⟩
      exact ⟨p, Or.inr rfl⟩

/-- Witness for C2 at concrete key sets. -/
theorem reconcile_tick_spec_witness :
    (reconcileRequests [1, 2] [2, 3]).count
        (ForwardRequest.forwardTcpip "127.0.0.1" 3) =
      if 3 ∈ [2, 3] ∧ 3 ∉ [1, 2] then 1 else 0 :=
  (reconcile_tick_spec [1, 2] [2, 3] (by decide) (by decide)).1 3

/-! ## C7: the chunked byte adapter -/

theorem readOutBytes_cons (o : ReadPoll) (outs : List ReadPoll) :
    readOutBytes (o :: outs) =
      (match o with
       | ReadPoll.readData w => w
       | _ => []) ++ readOutBytes outs := by
  cases o <;> simp [readOutBytes]

/-- One `poll_read` preserves well-formedness and the closed flag, is
prefix-preserving on the bytes held, reports the EOF error only when the
upstream is closed and fully drained, never grows the measure, and
strictly shrinks it whenever the target buffer is non-empty and data
remains. -/
theorem poll_read_step (st : ForwardedPortReader) (cap : Nat)
    (hwf : readerWF st) :
    readerWF (st.poll_read cap).2 ∧
    (st.poll_read cap).2.receiver.closed = st.receiver.closed ∧
    (match (st.poll_read cap).1 with
     | ReadPoll.readData w =>
         w ++ readerRep (st.poll_read cap).2 = readerRep st
     | ReadPoll.pending => readerRep (st.poll_read cap).2 = readerRep st
     | ReadPoll.eofError =>
         st.receiver.closed = true ∧ readerRep st = [] ∧
           readerRep (st.poll_read cap).2 = readerRep st) ∧
    readerMeasure (st.poll_read cap).2 ≤ readerMeasure st ∧
    (0 < cap → readerMeasure st ≠ 0 →
      readerMeasure (st.poll_read cap).2 < readerMeasure st) := by
  obtain ⟨⟨chunks, closed⟩, ⟨leftover⟩⟩ := st
  cases leftover with
  | some v =>
      have hv : v ≠ [] := by simpa [readerWF] using hwf
      have hlen : 0 < v.length := List.length_pos.mpr hv
      by_cases hle : v.length ≤ cap
      · have hpr : ForwardedPortReader.poll_read
            ⟨⟨chunks, closed⟩, ⟨some v⟩⟩ cap =
            (ReadPoll.readData v, ⟨⟨chunks, closed⟩, ⟨none⟩⟩) := by
          simp [ForwardedPortReader.poll_read, ReadBuffer.take_data,
            ReadBuffer.put_data, hv, hle]
        rw [hpr]
        refine ⟨by simp [readerWF], rfl, by simp [readerRep], ?_, ?_⟩
        · simp [readerRep, readerMeasure]
        · intro hcap hne
          simp [readerRep, readerMeasure]
          omega
      · have hvd : v.drop cap ≠ [] := by
          intro hd
          have := congrArg List.length hd
          simp [List.length_drop] at this
          omega
        have hpr : ForwardedPortReader.poll_read
            ⟨⟨chunks, closed⟩, ⟨some v⟩⟩ cap =
            (ReadPoll.readData (v.take cap),
              ⟨⟨chunks, closed⟩, ⟨some (v.drop cap)⟩⟩) := by
          simp [ForwardedPortReader.poll_read, ReadBuffer.take_data,
            ReadBuffer.put_data, hv, hle]
        rw [hpr]
        refine ⟨by simp [readerWF, hvd], rfl, ?_, ?_, ?_⟩
        · simp only [readerRep, Option.getD_some]
          rw [← List.append_assoc, List.take_append_drop]
        · simp only [readerRep, readerMeasure, Option.getD_some,
            List.length_append, List.length_drop]
          omega
        · intro hcap hne
          simp only [readerRep, readerMeasure, Option.getD_some,
            List.length_append, List.length_drop]
          omega
  | none =>
      cases chunks with
      | nil =>
          cases closed with
          | false =>
              have hpr : ForwardedPortReader.poll_read
                  ⟨⟨[], false⟩, ⟨none⟩⟩ cap =
                  (ReadPoll.pending, ⟨⟨[], false⟩, ⟨none⟩⟩) := by
                simp [ForwardedPortReader.poll_read, ReadBuffer.take_data,
                  ByteReceiver.poll_recv]
              rw [hpr]
              refine ⟨by simp [readerWF], rfl, rfl, Nat.le_refl _, ?_⟩
              intro _ hne
              exact absurd (by simp [readerMeasure, readerRep]) hne
          | true =>
              have hpr : ForwardedPortReader.poll_read
                  ⟨⟨[], true⟩, ⟨none⟩⟩ cap =
                  (ReadPoll.eofError, ⟨⟨[], true⟩, ⟨none⟩⟩) := by
                simp [ForwardedPortReader.poll_read, ReadBuffer.take_data,
                  ByteReceiver.poll_recv]
              rw [hpr]
              refine ⟨by simp [readerWF], rfl, ⟨rfl, by simp [readerRep], rfl⟩,
                Nat.le_refl _, ?_⟩
              intro _ hne
              exact absurd (by simp [readerMeasure, readerRep]) hne
      | cons c rest =>
          by_cases hc : c = ([] : List Nat)
          · subst hc
            have hpr : ForwardedPortReader.poll_read
                ⟨⟨[] :: rest, closed⟩, ⟨none⟩⟩ cap =
                (ReadPoll.pending, ⟨⟨rest, closed⟩, ⟨none⟩⟩) := by
              simp [ForwardedPortReader.poll_read, ReadBuffer.take_data,
                ByteReceiver.poll_recv, ReadBuffer.put_data]
            rw [hpr]
            refine ⟨by simp [readerWF], rfl, by simp [readerRep], ?_, ?_⟩
            · simp [readerRep, readerMeasure]
            · intro hcap hne
              simp [readerRep, readerMeasure]
          · have hclen : 0 < c.length := List.length_pos.mpr hc
            by_cases hle : c.length ≤ cap
            · have hpr : ForwardedPortReader.poll_read
                  ⟨⟨c :: rest, closed⟩, ⟨none⟩⟩ cap =
                  (ReadPoll.readData c, ⟨⟨rest, closed⟩, ⟨none⟩⟩) := by
                simp [ForwardedPortReader.poll_read, ReadBuffer.take_data,
                  ByteReceiver.poll_recv, ReadBuffer.put_data, hc, hle]
              rw [hpr]
              refine ⟨by simp [readerWF], rfl, by simp [readerRep], ?_, ?_⟩
              · simp [readerRep, readerMeasure]
                omega
              · intro hcap hne
                simp [readerRep, readerMeasure]
                omega
            · have hcd : c.drop cap ≠ [] := by
                intro hd
                have := congrArg List.length hd
                simp [List.length_drop] at this
                omega
              have hpr : ForwardedPortReader.poll_read
                  ⟨⟨c :: rest, closed⟩, ⟨none⟩⟩ cap =
                  (ReadPoll.readData (c.take cap),
                    ⟨⟨rest, closed⟩, ⟨some (c.drop cap)⟩⟩) := by
                simp [ForwardedPortReader.poll_read, ReadBuffer.take_data,
                  ByteReceiver.poll_recv, ReadBuffer.put_data, hc, hle]
              rw [hpr]
              refine ⟨by simp [readerWF, hcd], rfl, ?_, ?_, ?_⟩
              · simp only [readerRep, Option.getD_some, List.flatten_cons,
                  Option.getD_none, List.nil_append]
                rw [← List.append_assoc, List.take_append_drop]
              · simp [readerRep, readerMeasure, List.length_drop]
                omega
              · intro hcap hne
                simp [readerRep, readerMeasure, List.length_drop]
                omega

theorem readRun_invariant (caps : List Nat) :
    ∀ st : ForwardedPortReader, readerWF st →
      readOutBytes (readRun st caps).1 ++ readerRep (readRun st caps).2 =
        readerRep st ∧
      readerWF (readRun st caps).2 ∧
      (readRun st caps).2.receiver.closed = st.receiver.closed ∧
      (st.receiver.closed = false → ReadPoll.eofError ∉ (readRun st caps).1) := by
  induction caps with
  | nil =>
      intro st hwf
      simp [readRun, readOutBytes, hwf]
  | cons cap caps ih =>
      intro st hwf
      obtain ⟨hwfs, hclo, hmatch, _, _⟩ := poll_read_step st cap hwf
      have hr : readRun st (cap :: caps) =
          ((st.poll_read cap).1 :: (readRun (st.poll_read cap).2 caps).1,
            (readRun (st.poll_read cap).2 caps).2) := by
        simp [readRun]
      obtain ⟨hbytes, hwf', hclosed', hnoeof⟩ := ih (st.poll_read cap).2 hwfs
      rw [hr]
      refine ⟨?_, hwf', by rw [hclosed', hclo], ?_⟩
      · rw [readOutBytes_cons]
        cases ho : (st.poll_read cap).1 with
        | readData w =>
            have hmm : w ++ readerRep (st.poll_read cap).2 = readerRep st := by
              rw [ho] at hmatch
              exact hmatch
            simp only [List.append_assoc]
            rw [hbytes, hmm]
        | pending =>
            have hmm : readerRep (st.poll_read cap).2 = readerRep st := by
              rw [ho] at hmatch
              exact hmatch
            simpa [hbytes] using hmm
        | eofError =>
            have hmm : st.receiver.closed = true ∧ readerRep st = [] ∧
                readerRep (st.poll_read cap).2 = readerRep st := by
              rw [ho] at hmatch
              exact hmatch
            simp only [List.nil_append]
            rw [hbytes, hmm.2.2]
      · intro hop hmem
        rcases List.mem_cons.mp hmem with heq | hmem'
        · have hmm : st.receiver.closed = true ∧ readerRep st = [] ∧
              readerRep (st.poll_read cap).2 = readerRep st := by
            rw [← heq] at hmatch
            exact hmatch
          rw [hop] at hmm
          exact Bool.noConfusion hmm.1
        · exact hnoeof (by rw [hclo, hop]) hmem'

theorem readRun_drain (caps : List Nat) :
    ∀ st : ForwardedPortReader, readerWF st → (∀ c ∈ caps, 0 < c) →
      readerMeasure st ≤ caps.length →
      readOutBytes (readRun st caps).1 = readerRep st := by
  induction caps with
  | nil =>
      intro st _ _ hm
      have hrep : readerRep st = [] := by
        unfold readerMeasure at hm
        simp only [List.length_nil, Nat.le_zero] at hm
        exact List.eq_nil_of_length_eq_zero (by omega)
      simp [readRun, readOutBytes, hrep]
  | cons cap caps ih =>
      intro st hwf hpos hm
      obtain ⟨hwfs, hclo, hmatch, hle, hlt⟩ := poll_read_step st cap hwf
      by_cases h0 : readerMeasure st = 0
      · have hrep : readerRep st = [] := by
          unfold readerMeasure at h0
          exact List.eq_nil_of_length_eq_zero (by omega)
        have hinv := (readRun_invariant (cap :: caps) st hwf).1
        rw [hrep] at hinv
        rw [(List.append_eq_nil.mp hinv).1, hrep]
      · have hr : readRun st (cap :: caps) =
            ((st.poll_read cap).1 :: (readRun (st.poll_read cap).2 caps).1,
              (readRun (st.poll_read cap).2 caps).2) := by
          simp [readRun]
        have hcap : 0 < cap := hpos cap (List.mem_cons_self _ _)
        have hm' : readerMeasure (st.poll_read cap).2 ≤ caps.length := by
          have hx := hlt hcap h0
          simp only [List.length_cons] at hm
          omega
        have ihx := ih (st.poll_read cap).2 hwfs
          (fun c hc => hpos c (List.mem_cons_of_mem _ hc)) hm'
        rw [hr, readOutBytes_cons]
        cases ho : (st.poll_read cap).1 with
        | readData w =>
            have hmm : w ++ readerRep (st.poll_read cap).2 = readerRep st := by
              rw [ho] at hmatch
              exact hmatch
            simp only []
            rw [ihx, hmm]
        | pending =>
            have hmm : readerRep (st.poll_read cap).2 = readerRep st := by
              rw [ho] at hmatch
              exact hmatch
            simp only [List.nil_append]
            rw [ihx, hmm]
        | eofError =>
            have hmm : st.receiver.closed = true ∧ readerRep st = [] ∧
                readerRep (st.poll_read cap).2 = readerRep st := by
              rw [ho] at hmatch
              exact hmatch
            simp only [List.nil_append]
            rw [ihx, hmm.2.2]

/-- C7: the chunked byte adapter.
1. With a (necessarily non-empty) leftover and a non-empty target of
   capacity `cap`, a read returns exactly `min(|leftover|, cap)` bytes —
   the leftover's prefix — and stashes exactly its remaining suffix.
2. An empty next chunk is reported as `Pending` ("no data available
   yet"), not EOF and not a zero-byte success.
3. Any sequence of reads is prefix-preserving — the bytes delivered,
   followed by the bytes still held, are exactly the bytes held at the
   start — and never reports EOF while the upstream is open.
4. With non-empty target buffers and enough reads, the bytes delivered
   are exactly the concatenation of the queued chunks (after the
   leftover). -/
theorem chunked_adapter_spec :
    (∀ (recv : ByteReceiver) (v : List Nat) (cap : Nat), v ≠ [] → 0 < cap →
      ForwardedPortReader.poll_read ⟨recv, ⟨some v⟩⟩ cap =
        (ReadPoll.readData (v.take cap),
          ⟨recv, ⟨if v.length ≤ cap then none else some (v.drop cap)⟩⟩) ∧
      (v.take cap).length = min v.length cap) ∧
    (∀ (rest : List (List Nat)) (closed : Bool) (cap : Nat),
      ForwardedPortReader.poll_read ⟨⟨[] :: rest, closed⟩, ⟨none⟩⟩ cap =
        (ReadPoll.pending, ⟨⟨rest, closed⟩, ⟨none⟩⟩)) ∧
    (∀ (st : ForwardedPortReader) (caps : List Nat), readerWF st →
      readOutBytes (readRun st caps).1 ++ readerRep (readRun st caps).2 =
        readerRep st ∧
      (st.receiver.closed = false → ReadPoll.eofError ∉ (readRun st caps).1)) ∧
    (∀ (st : ForwardedPortReader) (caps : List Nat), readerWF st →
      (∀ c ∈ caps, 0 < c) → readerMeasure st ≤ caps.length →
      readOutBytes (readRun st caps).1 = readerRep st) := by
  refine ⟨?_, ?_, ?_, ?_⟩
  · intro recv v cap hv hcap
    constructor
    · by_cases hle : v.length ≤ cap
      · simp [ForwardedPortReader.poll_read, ReadBuffer.take_data,
          ReadBuffer.put_data, hv, hle, List.take_of_length_le hle]
      · simp [ForwardedPortReader.poll_read, ReadBuffer.take_data,
          ReadBuffer.put_data, hv, hle]
    · simp [List.length_take, Nat.min_comm]
  · intro rest closed cap
    simp [ForwardedPortReader.poll_read, ReadBuffer.take_data,
      ByteReceiver.poll_recv, ReadBuffer.put_data]
  · intro st caps hwf
    obtain ⟨h1, _, _, h4⟩ := readRun_invariant caps st hwf
    exact ⟨h1, h4⟩
  · intro st caps hwf hpos hm
    exact readRun_drain caps st hwf hpos hm

/-- Witness for C7: chunks [1,2,3] and [4] read through capacity-2
buffers yield exactly [1,2,3,4]. -/
theorem chunked_adapter_spec_witness :
    readOutBytes (readRun ⟨⟨[[1, 2, 3], [4]], false⟩, ⟨none⟩⟩
        [2, 2, 2, 2, 2, 2]).1 =
      readerRep ⟨⟨[[1, 2, 3], [4]], false⟩, ⟨none⟩⟩ :=
  chunked_adapter_spec.2.2.2 ⟨⟨[[1, 2, 3], [4]], false⟩, ⟨none⟩⟩
    [2, 2, 2, 2, 2, 2] (by simp [readerWF]) (by decide) (by decide)

/-! ## C8: WebSocket liveness -/

theorem wsReadLoop_spec (interval now : Nat) :
    ∀ (frames : List Frame) (s : WsState),
      (frames.all (fun f => !frameIsClose f) = true →
        (wsReadLoop interval now s frames).1 ≠ WsReadOut.wsEof) ∧
      ((wsReadLoop interval now s frames).2.2 = 0 ∧
          (wsReadLoop interval now s frames).2.1 = s ∨
        (wsReadLoop interval now s frames).2.1.deadline = now + interval) ∧
      (s.pingState ≠ PingState.sendingPing →
        (wsReadLoop interval now s frames).2.1.pingState ≠
          PingState.sendingPing) := by
  intro frames
  induction frames with
  | nil =>
      intro s
      simp [wsReadLoop]
  | cons f rest ih =>
      intro s
      cases f with
      | text payload =>
          by_cases hp : payload = ([] : List Nat)
          · refine ⟨?_, ?_, ?_⟩ <;> simp [wsReadLoop, hp]
          · refine ⟨?_, ?_, ?_⟩ <;> simp [wsReadLoop, hp]
      | binary payload =>
          by_cases hp : payload = ([] : List Nat)
          · refine ⟨?_, ?_, ?_⟩ <;> simp [wsReadLoop, hp]
          · refine ⟨?_, ?_, ?_⟩ <;> simp [wsReadLoop, hp]
      | closeFrame =>
          refine ⟨?_, ?_, ?_⟩
          · intro hall
            simp [frameIsClose] at hall
          · simp [wsReadLoop]
          · simp [wsReadLoop]
      | pongFrame payload =>
          have ihx := ih ⟨PingState.willPing, now + interval⟩
          refine ⟨?_, ?_, ?_⟩
          · intro hall
            have hall' : rest.all (fun f => !frameIsClose f) = true := by
              simp only [List.all_cons, Bool.and_eq_true] at hall
              exact hall.2
            simpa [wsReadLoop] using ihx.1 hall'
          · rcases ihx.2.1 with ⟨h0, hs⟩ | hd
            · right
              simp [wsReadLoop, hs]
            · right
              simpa [wsReadLoop] using hd
          · intro _
            have hx := ihx.2.2 (by simp)
            simpa [wsReadLoop] using hx
      | pingFrame payload =>
          have ihx := ih ⟨s.pingState, now + interval⟩
          refine ⟨?_, ?_, ?_⟩
          · intro hall
            have hall' : rest.all (fun f => !frameIsClose f) = true := by
              simp only [List.all_cons, Bool.and_eq_true] at hall
              exact hall.2
            simpa [wsReadLoop] using ihx.1 hall'
          · rcases ihx.2.1 with ⟨h0, hs⟩ | hd
            · right
              simp [wsReadLoop, hs]
            · right
              simpa [wsReadLoop] using hd
          · intro hns
            have hx := ihx.2.2 (by simpa using hns)
            simpa [wsReadLoop] using hx

theorem wsReadLoop_inv (interval now : Nat) (s : WsState) (frames : List Frame)
    (lt : Nat) (hns : s.pingState ≠ PingState.sendingPing)
    (hd : lt + interval ≤ s.deadline) (hlt : lt ≤ now) :
    wsInv interval (wsReadLoop interval now s frames).2.1
      (if (wsReadLoop interval now s frames).2.2 = 0 then lt else now) now := by
  have hps := (wsReadLoop_spec interval now frames s).2.2 hns
  rcases (wsReadLoop_spec interval now frames s).2.1 with ⟨h0, hs⟩ | hdl
  · rw [if_pos h0, hs]
    cases hx : s.pingState with
    | sendingPing => exact absurd hx hns
    | willPing => simpa [wsInv, hx] using hd
    | waitingForPong => simpa [wsInv, hx] using hd
  · by_cases h0 : (wsReadLoop interval now s frames).2.2 = 0
    · rw [if_pos h0]
      cases hx : (wsReadLoop interval now s frames).2.1.pingState with
      | sendingPing => exact absurd hx hps
      | willPing => simp [wsInv, hx, hdl]; omega
      | waitingForPong => simp [wsInv, hx, hdl]; omega
    · rw [if_neg h0]
      cases hx : (wsReadLoop interval now s frames).2.1.pingState with
      | sendingPing => exact absurd hx hps
      | willPing => simp [wsInv, hx, hdl]
      | waitingForPong => simp [wsInv, hx, hdl]

theorem wsPollRead_inv (interval timeout : Nat) (s : WsState)
    (lt tprev now : Nat) (flushReady : Bool) (frames : List Frame)
    (hinv : wsInv interval s lt tprev) (hltp : lt ≤ tprev) (hle : tprev ≤ now)
    (hnc : frames.all (fun f => !frameIsClose f) = true) :
    wsInv interval (wsPollRead interval timeout s now flushReady frames).2.1
      (if (wsPollRead interval timeout s now flushReady frames).2.2 = 0
        then lt else now) now ∧
    ((wsPollRead interval timeout s now flushReady frames).1 =
      WsReadOut.wsEof → lt + interval ≤ now) := by
  obtain ⟨ps, d⟩ := s
  cases ps with
  | sendingPing =>
      have hinv' : lt + interval ≤ tprev := by simpa [wsInv] using hinv
      by_cases hf : flushReady
      · have heq : wsPollRead interval timeout ⟨PingState.sendingPing, d⟩ now
            flushReady frames =
            wsReadLoop interval now ⟨PingState.waitingForPong, now + timeout⟩
              frames := by
          simp [wsPollRead, hf]
        rw [heq]
        constructor
        · exact wsReadLoop_inv interval now _ frames lt (by simp)
            (by simp; omega) (by omega)
        · intro heof
          exact absurd heof
            ((wsReadLoop_spec interval now frames _).1 hnc)
      · have heq : wsPollRead interval timeout ⟨PingState.sendingPing, d⟩ now
            flushReady frames =
            (WsReadOut.wsPending, ⟨PingState.sendingPing, d⟩, 0) := by
          simp [wsPollRead, hf]
        rw [heq]
        refine ⟨?_, by intro h; cases h⟩
        simp [wsInv]
        omega
  | willPing =>
      have hinv' : lt + interval ≤ d := by simpa [wsInv] using hinv
      by_cases hfire : d ≤ now
      · by_cases hf : flushReady
        · have heq : wsPollRead interval timeout ⟨PingState.willPing, d⟩ now
              flushReady frames =
              wsReadLoop interval now ⟨PingState.waitingForPong, now + timeout⟩
                frames := by
            simp [wsPollRead, hf, hfire]
          rw [heq]
          constructor
          · exact wsReadLoop_inv interval now _ frames lt (by simp)
              (by simp; omega) (by omega)
          · intro heof
            exact absurd heof
              ((wsReadLoop_spec interval now frames _).1 hnc)
        · have heq : wsPollRead interval timeout ⟨PingState.willPing, d⟩ now
              flushReady frames =
              (WsReadOut.wsPending, ⟨PingState.sendingPing, d⟩, 0) := by
            simp [wsPollRead, hf, hfire]
          rw [heq]
          refine ⟨?_, by intro h; cases h⟩
          simp [wsInv]
          omega
      · have heq : wsPollRead interval timeout ⟨PingState.willPing, d⟩ now
            flushReady frames =
            wsReadLoop interval now ⟨PingState.willPing, d⟩ frames := by
          simp [wsPollRead, hfire]
        rw [heq]
        constructor
        · exact wsReadLoop_inv interval now _ frames lt (by simp)
            (by simpa using hinv') (by omega)
        · intro heof
          exact absurd heof ((wsReadLoop_spec interval now frames _).1 hnc)
  | waitingForPong =>
      have hinv' : lt + interval ≤ d := by simpa [wsInv] using hinv
      by_cases hfire : d ≤ now
      · have heq : wsPollRead interval timeout ⟨PingState.waitingForPong, d⟩ now
            flushReady frames =
            (WsReadOut.wsEof, ⟨PingState.waitingForPong, d⟩, 0) := by
          simp [wsPollRead, hfire]
        rw [heq]
        refine ⟨by simpa [wsInv] using hinv', ?_⟩
        intro _
        omega
      · have heq : wsPollRead interval timeout ⟨PingState.waitingForPong, d⟩ now
            flushReady frames =
            wsReadLoop interval now ⟨PingState.waitingForPong, d⟩ frames := by
          simp [wsPollRead, hfire]
        rw [heq]
        constructor
        · exact wsReadLoop_inv interval now _ frames lt (by simp)
            (by simpa using hinv') (by omega)
        · intro heof
          exact absurd heof ((wsReadLoop_spec interval now frames _).1 hnc)

theorem wsRun_eof_bound (interval timeout : Nat) :
    ∀ (polls : List PollIn) (s : WsState) (lt tprev : Nat),
      wsInv interval s lt tprev → lt ≤ tprev →
      pollsMonotone tprev polls = true → pollsNoClose polls = true →
      ∀ step ∈ (wsRun interval timeout s lt polls).1,
        step.out = WsReadOut.wsEof → step.trafficBefore + interval ≤ step.time := by
  intro polls
  induction polls with
  | nil =>
      intro s lt tprev _ _ _ _ step hstep
      simp [wsRun] at hstep
  | cons p rest ih =>
      intro s lt tprev hinv hltp hmono hnc step hstep heof
      have hmono' : tprev ≤ p.now ∧ pollsMonotone p.now rest = true := by
        simpa [pollsMonotone, Bool.and_eq_true] using hmono
      have hnc' : p.frames.all (fun f => !frameIsClose f) = true ∧
          pollsNoClose rest = true := by
        simpa [pollsNoClose, Bool.and_eq_true] using hnc
      have hpoll := wsPollRead_inv interval timeout s lt tprev p.now
        p.flushReady p.frames hinv hltp hmono'.1 hnc'.1
      have hrw : wsRun interval timeout s lt (p :: rest) =
          (⟨p.now, (wsPollRead interval timeout s p.now p.flushReady p.frames).1,
              lt⟩ ::
            (wsRun interval timeout
              (wsPollRead interval timeout s p.now p.flushReady p.frames).2.1
              (if (wsPollRead interval timeout s p.now p.flushReady
                    p.frames).2.2 = 0 then lt else p.now) rest).1,
            (wsRun interval timeout
              (wsPollRead interval timeout s p.now p.flushReady p.frames).2.1
              (if (wsPollRead interval timeout s p.now p.flushReady
                    p.frames).2.2 = 0 then lt else p.now) rest).2) := by
        simp [wsRun]
      rw [hrw] at hstep
      rcases List.mem_cons.mp hstep with hfirst | hrest
      · subst hfirst
        simp only at heof
        exact hpoll.2 heof
      · refine ih _ _ p.now hpoll.1 ?_ hmono'.2 hnc'.2 step hrest heof
        split
        · exact le_trans hltp hmono'.1
        · exact Nat.le_refl _

/-- C8 (amended): in the websocket liveness machine, (1) when the ping
timer fires in `WaitingForPong` the read side signals EOF, leaving the
state as is — the stream ends there for its consumer; (2) a pong
consumed in `WaitingForPong` moves the state back to `WillPing` with the
timer reset to `ping_interval`; (3) consequently, on any
well-formed poll trace in which the upstream never closes, EOF is
signalled only when at least `ping_interval` has elapsed with no inbound
traffic. (The stated `ping_interval + ping_timeout` bound holds only
when no text or binary frame is consumed while in `WaitingForPong`: such
a frame resets the timer but leaves the state `WaitingForPong`.) -/
theorem ws_liveness_spec (interval timeout : Nat) :
    (∀ (s : WsState) (now : Nat) (flushReady : Bool) (frames : List Frame),
      s.pingState = PingState.waitingForPong → s.deadline ≤ now →
      wsPollRead interval timeout s now flushReady frames =
        (WsReadOut.wsEof, s, 0)) ∧
    (∀ (now d : Nat) (payload : List Nat) (rest : List Frame),
      wsReadLoop interval now ⟨PingState.waitingForPong, d⟩
          (Frame.pongFrame payload :: rest) =
        ((wsReadLoop interval now ⟨PingState.willPing, now + interval⟩ rest).1,
          (wsReadLoop interval now
            ⟨PingState.willPing, now + interval⟩ rest).2.1,
          (wsReadLoop interval now
            ⟨PingState.willPing, now + interval⟩ rest).2.2 + 1)) ∧
    (∀ (start : Nat) (polls : List PollIn),
      pollsMonotone start polls = true → pollsNoClose polls = true →
      ∀ step ∈ (wsRun interval timeout (wsInit interval start) start polls).1,
        step.out = WsReadOut.wsEof →
          step.trafficBefore + interval ≤ step.time) := by
  refine ⟨?_, ?_, ?_⟩
  · intro s now flushReady frames hps hd
    obtain ⟨ps, d⟩ := s
    simp only at hps
    subst hps
    simp [wsPollRead, hd]
  · intro now d payload rest
    rfl
  · intro start polls hmono hnc
    exact wsRun_eof_bound interval timeout polls (wsInit interval start) start
      start (by simp [wsInv, wsInit]) (Nat.le_refl _) hmono hnc

/-- C8 counterexample: with `ping_interval = 2` and `ping_timeout = 10`,
a monotone close-free poll trace receives a binary frame at time 3 while
in `WaitingForPong` (resetting the timer but not the state) and the read
side then signals EOF at time 5 — only `ping_interval` after the last
inbound traffic, strictly sooner than
`ping_interval + ping_timeout = 12`. -/
theorem ws_liveness_counterexample :
    pollsMonotone 0
        [⟨2, true, []⟩, ⟨3, true, [Frame.binary [7]]⟩, ⟨5, true, []⟩] = true ∧
    pollsNoClose
        [⟨2, true, []⟩, ⟨3, true, [Frame.binary [7]]⟩, ⟨5, true, []⟩] = true ∧
    ∃ step ∈ (wsRun 2 10 (wsInit 2 0) 0
        [⟨2, true, []⟩, ⟨3, true, [Frame.binary [7]]⟩, ⟨5, true, []⟩]).1,
      step.out = WsReadOut.wsEof ∧
        step.time < step.trafficBefore + (2 + 10) := by
  decide

/-- Witness for C8 (amended) at a concrete silent trace. -/
theorem ws_liveness_spec_witness : (0 : Nat) + 2 ≤ 22 :=
  (ws_liveness_spec 2 10).2.2 0 [⟨12, true, []⟩, ⟨22, true, []⟩]
    (by decide) (by decide) ⟨22, WsReadOut.wsEof, 0⟩ (by decide) rfl

/-! ## C9: forwarded-connection construction, routing, and data delivery -/

theorem mem_alErase {α : Type} {m : List (Nat × α)} {k : Nat} {p : Nat × α}
    (h : p ∈ alErase m k) : p ∈ m ∧ p.1 ≠ k := by
  simpa [alErase, List.mem_filter, bne_iff_ne] using h

theorem mem_alInsert {α : Type} {m : List (Nat × α)} {k : Nat} {v : α}
    {p : Nat × α} (h : p ∈ alInsert m k v) :
    p = (k, v) ∨ (p ∈ m ∧ p.1 ≠ k) := by
  rcases List.mem_append.mp h with h' | h'
  · exact Or.inr (mem_alErase h')
  · left
    simpa using h'

theorem alFind_cons {α : Type} (q : Nat × α) (l : List (Nat × α)) (k : Nat) :
    alFind (q :: l) k = if q.1 = k then some q.2 else alFind l k := by
  by_cases h : q.1 = k
  · rw [alFind, List.find?_cons_of_pos _ (by simp [h])]
    simp [h]
  · rw [alFind, List.find?_cons_of_neg _ (by simp [h])]
    simp [h, alFind]

theorem alErase_cons {α : Type} (q : Nat × α) (l : List (Nat × α)) (k : Nat) :
    alErase (q :: l) k = if q.1 = k then alErase l k else q :: alErase l k := by
  by_cases h : q.1 = k <;> simp [alErase, List.filter_cons, h]

theorem alFind_alErase {α : Type} (l : List (Nat × α)) (k k' : Nat) :
    alFind (alErase l k) k' = if k' = k then none else alFind l k' := by
  induction l with
  | nil => simp [alErase, alFind]
  | cons q rest ih =>
      rw [alErase_cons]
      by_cases hqk : q.1 = k
      · rw [if_pos hqk, ih]
        by_cases hk' : k' = k
        · simp [hk']
        · rw [if_neg hk', if_neg hk', alFind_cons,
            if_neg (fun hc => hk' (by rw [← hc, hqk]))]
      · rw [if_neg hqk, alFind_cons, alFind_cons, ih]
        by_cases hq' : q.1 = k'
        · have hk' : ¬ k' = k := fun hc => hqk (by rw [hq', hc])
          simp [hq', hk']
        · simp [hq']

theorem alFind_alInsert_self {α : Type} (l : List (Nat × α)) (k : Nat) (v : α) :
    alFind (alInsert l k v) k = some v := by
  unfold alInsert
  induction l with
  | nil => simp [alErase, alFind_cons]
  | cons q rest ih =>
      rw [alErase_cons]
      by_cases hq : q.1 = k
      · rw [if_pos hq]
        exact ih
      · rw [if_neg hq, List.cons_append, alFind_cons, if_neg hq]
        exact ih

theorem alFind_alInsert_ne {α : Type} (l : List (Nat × α)) (k k' : Nat) (v : α)
    (hk : k' ≠ k) : alFind (alInsert l k v) k' = alFind l k' := by
  unfold alInsert
  induction l with
  | nil =>
      simp only [alErase, List.filter_nil, List.nil_append]
      rw [alFind_cons, if_neg (fun hc => hk hc.symm)]
  | cons q rest ih =>
      rw [alErase_cons]
      by_cases hq : q.1 = k
      · rw [if_pos hq, ih, alFind_cons,
          if_neg (fun hc => hk (by rw [← hc, hq]))]
      · rw [if_neg hq, List.cons_append, alFind_cons, alFind_cons]
        by_cases hq' : q.1 = k'
        · rw [if_pos hq', if_pos hq']
        · rw [if_neg hq', if_neg hq', ih]

theorem mem_of_alFind {α : Type} {m : List (Nat × α)} {k : Nat} {v : α}
    (h : alFind m k = some v) : (k, v) ∈ m := by
  unfold alFind at h
  cases hf : m.find? (fun p => p.1 == k) with
  | none => rw [hf] at h; cases h
  | some p =>
      rw [hf] at h
      have hp : p ∈ m := List.mem_of_find?_eq_some hf
      have hk : p.1 = k := by
        have := List.find?_some hf
        simpa using this
      have hv : p.2 = v := by simpa using h
      have : p = (k, v) := Prod.ext hk hv
      rw [← this]
      exact hp

theorem sessGood_mono (events events' : List SessEvent) (st : SessionState)
    (hsub : ∀ e ∈ events, e ∈ events') (h : sessGood events st) :
    sessGood events' st := by
  obtain ⟨h1, h2, h3, h4, h5, h6, h7⟩ := h
  refine ⟨h1, h2, h3, h4, h5, ?_, ?_⟩
  · intro c hc
    obtain ⟨hostName, oa, op, hmem⟩ := h6 c hc
    exact ⟨hostName, oa, op, hsub _ hmem⟩
  · intro cid chunks hfind b hb
    obtain ⟨c, hcm, hcid, horig⟩ := h7 cid chunks hfind b hb
    exact ⟨c, hcm, hcid, hsub _ horig⟩

theorem sessGood_step (events : List SessEvent) (st : SessionState)
    (e : SessEvent) (h : sessGood events st) :
    sessGood (events ++ [e]) (sessStep st e) := by
  have hsub : ∀ x ∈ events, x ∈ events ++ [e] :=
    fun x hx => List.mem_append_left _ hx
  obtain ⟨h1, h2, h3, h4, h5, h6, h7⟩ :=
    sessGood_mono events (events ++ [e]) st hsub h
  cases e with
  | openForwarded ch hostName p oa op =>
      have hst : sessStep st (SessEvent.openForwarded ch hostName p oa op) =
          { st with
            pendingCnx := st.pendingCnx ++ [⟨st.nextConn, p, ch⟩]
            channelSenders := alInsert st.channelSenders ch st.nextConn
            buffers := alInsert st.buffers st.nextConn []
            allConns := st.allConns ++ [⟨st.nextConn, p, ch⟩]
            nextConn := st.nextConn + 1 } := rfl
      rw [hst]
      refine ⟨?_, ?_, ?_, ?_, ?_, ?_, ?_⟩
      · intro c hc
        rcases List.mem_append.mp hc with hco | hcn
        · exact Nat.lt_succ_of_lt (h1 c hco)
        · have hce : c = ⟨st.nextConn, p, ch⟩ := by simpa using hcn
          rw [hce]
          exact Nat.lt_succ_self _
      · intro c hc c' hc' heq
        rcases List.mem_append.mp hc with hco | hcn <;>
          rcases List.mem_append.mp hc' with hco' | hcn'
        · exact h2 c hco c' hco' heq
        · have hce : c' = ⟨st.nextConn, p, ch⟩ := by simpa using hcn'
          have hlt := h1 c hco
          rw [hce] at heq
          have heq' : c.connId = st.nextConn := heq
          exact absurd heq' (by omega)
        · have hce : c = ⟨st.nextConn, p, ch⟩ := by simpa using hcn
          have hlt := h1 c' hco'
          rw [hce] at heq
          have heq' : st.nextConn = c'.connId := heq
          exact absurd heq'.symm (by omega)
        · have hce : c = ⟨st.nextConn, p, ch⟩ := by simpa using hcn
          have hce' : c' = ⟨st.nextConn, p, ch⟩ := by simpa using hcn'
          rw [hce, hce']
      · intro ch' cid hmem
        rcases mem_alInsert hmem with heqp | ⟨hold, _⟩
        · have hch : ch' = ch := congrArg Prod.fst heqp
          have hcid : cid = st.nextConn := congrArg Prod.snd heqp
          refine ⟨⟨st.nextConn, p, ch⟩, List.mem_append_right _ (by simp),
            ?_, ?_⟩
          · rw [hcid]
          · rw [hch]
        · obtain ⟨c, hcm, hcid, hch⟩ := h3 ch' cid hold
          exact ⟨c, List.mem_append_left _ hcm, hcid, hch⟩
      · intro c hc
        rcases List.mem_append.mp hc with hco | hcn
        · exact List.mem_append_left _ (h4 c hco)
        · have hce : c = ⟨st.nextConn, p, ch⟩ := by simpa using hcn
          rw [hce]
          exact List.mem_append_right _ (by simp)
      · intro p' c snap hmem
        obtain ⟨hp, hs, hcm⟩ := h5 p' c snap hmem
        exact ⟨hp, hs, List.mem_append_left _ hcm⟩
      · intro c hc
        rcases List.mem_append.mp hc with hco | hcn
        · exact h6 c hco
        · have hce : c = ⟨st.nextConn, p, ch⟩ := by simpa using hcn
          refine ⟨hostName, oa, op, ?_⟩
          rw [hce]
          exact List.mem_append_right _ (by simp)
      · intro cid chunks hfind b hb
        by_cases hcid : cid = st.nextConn
        · rw [hcid, alFind_alInsert_self] at hfind
          have hch : chunks = [] := by
            injection hfind with hh
            exact hh.symm
          rw [hch] at hb
          cases hb
        · rw [alFind_alInsert_ne _ _ _ _ hcid] at hfind
          obtain ⟨c, hcm, hc1, hc2⟩ := h7 cid chunks hfind b hb
          exact ⟨c, List.mem_append_left _ hcm, hc1, hc2⟩
  | dataCallback ch bytes alive =>
      cases hfind : alFind st.channelSenders ch with
      | none =>
          have hst : sessStep st (SessEvent.dataCallback ch bytes alive) = st := by
            simp [sessStep, hfind]
          rw [hst]
          exact ⟨h1, h2, h3, h4, h5, h6, h7⟩
      | some cid =>
          cases alive with
          | true =>
              have hst : sessStep st (SessEvent.dataCallback ch bytes true) =
                  { st with buffers := alInsert st.buffers cid ((alFind st.buffers cid).getD [] ++ [bytes]) } := by
                simp [sessStep, hfind]
              rw [hst]
              refine ⟨h1, h2, h3, h4, h5, h6, ?_⟩
              intro cid' chunks hf b hb
              by_cases hc : cid' = cid
              · subst hc
                rw [alFind_alInsert_self] at hf
                have hch : chunks = (alFind st.buffers cid').getD [] ++ [bytes] := by
                  injection hf with hh
                  exact hh.symm
                rw [hch] at hb
                rcases List.mem_append.mp hb with hbo | hbn
                · cases hgo : alFind st.buffers cid' with
                  | none =>
                      rw [hgo] at hbo
                      simp at hbo
                  | some oldChunks =>
                      rw [hgo] at hbo
                      simp only [Option.getD_some] at hbo
                      exact h7 cid' oldChunks hgo b hbo
                · have hbb : b = bytes := by simpa using hbn
                  obtain ⟨c, hcm, hc1, hc2⟩ := h3 ch cid' (mem_of_alFind hfind)
                  refine ⟨c, hcm, hc1, ?_⟩
                  rw [hbb, hc2]
                  exact List.mem_append_right _ (by simp)
              · rw [alFind_alInsert_ne _ _ _ _ hc] at hf
                exact h7 cid' chunks hf b hb
          | false =>
              have hst : sessStep st (SessEvent.dataCallback ch bytes false) =
                  { st with channelSenders := alErase st.channelSenders ch } := by
                simp [sessStep, hfind]
              rw [hst]
              refine ⟨h1, h2, ?_, h4, h5, h6, h7⟩
              intro ch' cid' hmem
              exact h3 ch' cid' (mem_alErase hmem).1
  | connArrived sendOk =>
      cases hpc : st.pendingCnx with
      | nil =>
          have hst : sessStep st (SessEvent.connArrived sendOk) = st := by
            simp [sessStep, hpc]
          rw [hst]
          exact ⟨h1, h2, h3, h4, h5, h6, h7⟩
      | cons c rest =>
          have hcm : c ∈ st.pendingCnx := by
            rw [hpc]
            exact List.mem_cons_self _ _
          have hrest : ∀ c' ∈ rest, c' ∈ st.pendingCnx := by
            intro c' hc'
            rw [hpc]
            exact List.mem_cons_of_mem _ hc'
          by_cases hct : st.knownPorts.contains c.port = true
          · have hctm : c.port ∈ st.knownPorts := by simpa using hct
            cases sendOk with
            | true =>
                have hst : sessStep st (SessEvent.connArrived true) =
                    { st with
                      pendingCnx := rest
                      routed := st.routed ++ [(c.port, c, st.knownPorts)] } := by
                  simp [sessStep, hpc, hctm]
                rw [hst]
                refine ⟨h1, h2, h3, ?_, ?_, h6, h7⟩
                · intro c' hc'
                  exact h4 c' (hrest c' hc')
                · intro p' c' snap hmem
                  rcases List.mem_append.mp hmem with hmo | hmn
                  · exact h5 p' c' snap hmo
                  · have hce : (p', c', snap) = (c.port, c, st.knownPorts) := by
                      simpa using hmn
                    have hp' : p' = c.port := congrArg (fun x => x.1) hce
                    have hcc : c' = c := congrArg (fun x => x.2.1) hce
                    have hsnap : snap = st.knownPorts :=
                      congrArg (fun x => x.2.2) hce
                    rw [hp', hcc, hsnap]
                    exact ⟨rfl, hct, h4 c hcm⟩
            | false =>
                have hst : sessStep st (SessEvent.connArrived false) =
                    { st with pendingCnx := rest } := by
                  simp [sessStep, hpc, hctm]
                rw [hst]
                refine ⟨h1, h2, h3, ?_, h5, h6, h7⟩
                intro c' hc'
                exact h4 c' (hrest c' hc')
          · have hctm : ¬ c.port ∈ st.knownPorts := by simpa using hct
            have hst : sessStep st (SessEvent.connArrived sendOk) =
                { st with pendingCnx := rest } := by
              simp [sessStep, hpc, hctm]
            rw [hst]
            refine ⟨h1, h2, h3, ?_, h5, h6, h7⟩
            intro c' hc'
            exact h4 c' (hrest c' hc')
  | portsChanged newPorts =>
      have hst : sessStep st (SessEvent.portsChanged newPorts) =
          { st with knownPorts := newPorts } := rfl
      rw [hst]
      exact ⟨h1, h2, h3, h4, h5, h6, h7⟩

theorem sessGood_run : ∀ (events : List SessEvent) (st : SessionState)
    (processed : List SessEvent), sessGood processed st →
    sessGood (processed ++ events) (sessRun st events) := by
  intro events
  induction events with
  | nil =>
      intro st processed h
      simpa [sessRun] using h
  | cons e rest ih =>
      intro st processed h
      have h2 := ih (sessStep st e) (processed ++ [e]) (sessGood_step processed st e h)
      have heq : (processed ++ [e]) ++ rest = processed ++ e :: rest := by
        simp
      rw [heq] at h2
      exact h2

theorem sessGood_init : sessGood [] sessInit := by
  refine ⟨?_, ?_, ?_, ?_, ?_, ?_, ?_⟩ <;>
    simp [sessInit, alFind]

/-- C9: in any run of a client session, every connection delivered to the
per-port receiver registered for port `p` carries `p` as the port
selector of the `channel_open_forwarded_tcpip` callback that constructed
it, was routed only while `p` was in the session's `known_ports`
snapshot, and every chunk buffered for it was delivered by a `data`
callback on that same channel id; and a failed send to the per-port
receiver is ignored — the loop merely pops the queued connection and
continues. -/
theorem forwarded_connection_routing (events : List SessEvent) :
    (∀ (p : Nat) (c : ForwardedConnMeta) (snap : List Nat),
      (p, c, snap) ∈ (sessRun sessInit events).routed →
      c.port = p ∧ snap.contains c.port = true ∧ connHasOrigin events c ∧
      (∀ chunks, alFind (sessRun sessInit events).buffers c.connId =
          some chunks →
        ∀ b ∈ chunks, chunkHasOrigin events c.channel b)) ∧
    (∀ (s : SessionState) (c : ForwardedConnMeta)
        (rest : List ForwardedConnMeta), s.pendingCnx = c :: rest →
      sessStep s (SessEvent.connArrived false) =
        { s with pendingCnx := rest }) := by
  constructor
  · intro p c snap hmem
    obtain ⟨h1, h2, h3, h4, h5, h6, h7⟩ := by
      simpa using sessGood_run events sessInit [] sessGood_init
    obtain ⟨hp, hsnap, hcm⟩ := h5 p c snap hmem
    refine ⟨hp, hsnap, h6 c hcm, ?_⟩
    intro chunks hfind b hb
    obtain ⟨c', hcm', hcid', horig'⟩ := h7 c.connId chunks hfind b hb
    have : c' = c := h2 c' hcm' c hcm hcid'
    rw [← this]
    exact horig'
  · intro s c rest hpc
    by_cases hct : c.port ∈ s.knownPorts
    · simp [sessStep, hpc, hct]
    · simp [sessStep, hpc, hct]

/-- Witness for C9 at a concrete event trace: a connection opened on
channel 9 for port 8080 is routed after the port becomes known, and its
buffered chunk [1,2] originates from the data callback on channel 9. -/
theorem forwarded_connection_routing_witness :
    (⟨0, 8080, 9⟩ : ForwardedConnMeta).port = 8080 ∧
    ([8080] : List Nat).contains
        (⟨0, 8080, 9⟩ : ForwardedConnMeta).port = true ∧
    connHasOrigin
        [SessEvent.openForwarded 9 "h" 8080 "o" 1,
          SessEvent.portsChanged [8080], SessEvent.connArrived true,
          SessEvent.dataCallback 9 [1, 2] true] ⟨0, 8080, 9⟩ ∧
    (∀ chunks,
      alFind (sessRun sessInit
          [SessEvent.openForwarded 9 "h" 8080 "o" 1,
            SessEvent.portsChanged [8080], SessEvent.connArrived true,
            SessEvent.dataCallback 9 [1, 2] true]).buffers
          (⟨0, 8080, 9⟩ : ForwardedConnMeta).connId = some chunks →
      ∀ b ∈ chunks,
        chunkHasOrigin
          [SessEvent.openForwarded 9 "h" 8080 "o" 1,
            SessEvent.portsChanged [8080], SessEvent.connArrived true,
            SessEvent.dataCallback 9 [1, 2] true]
          (⟨0, 8080, 9⟩ : ForwardedConnMeta).channel b) :=
  (forwarded_connection_routing
      [SessEvent.openForwarded 9 "h" 8080 "o" 1,
        SessEvent.portsChanged [8080], SessEvent.connArrived true,
        SessEvent.dataCallback 9 [1, 2] true]).1
    8080 ⟨0, 8080, 9⟩ [8080] (by decide)

end DevTunnels
